import Mathlib

/-! Path resolution and launching in `libs/wine/config.c`.

A shallow embedding of `src/wine/libs/wine/config.c`.

* A C string is the list of its characters before the terminating NUL.
* A `char *` that may be `NULL` is an `Option`.
* The eight file-scope pointers (`bindir`, `dlldir`, ...) are the fields of `State`;
  every function that writes them takes a `State` and gives one back.
* The preprocessor symbols and compiled-in strings that `config.h` and the makefile
  would supply are the fields of `Config`.
* What the operating system answers (`getenv`, `getuid`, `getpwuid`, `stat`,
  `readlink`, `dladdr`, `getcwd`) is the `Env` record; `execv` is a predicate telling
  which calls replace the process image.
* Loops on pointers run on indices; the buffer-doubling loops and the `PATH` loop run
  on a round counter that is proved to be large enough.
* `fatal_error` and `fatal_perror` end the process with `exit(1)`; this is the `fatal`
  outcome. Allocation failure inside `xmalloc` is not modelled.
-/

namespace WineConfig

/-! ## Build configuration, environment and process state -/

/-- Build-time configuration: the symbols tested by `#ifdef` and the string constants
that are compiled in. -/
structure Config where
  /-- Width of `unsigned long` in bits. -/
  ulong_bits : Nat
  /-- `__ANDROID__` is defined. -/
  android : Bool
  /-- `HAVE_GETUID` is defined. -/
  have_getuid : Bool
  /-- `HAVE_GETPWUID` is defined. -/
  have_getpwuid : Bool
  /-- `HAVE_DLADDR` is defined. -/
  have_dladdr : Bool
  /-- `linux` is defined. -/
  linux : Bool
  /-- `EXE_LINK`, when the platform defines one. -/
  EXE_LINK : Option (List Char)
  BINDIR : List Char
  LIB_TO_BINDIR : List Char
  LIB_TO_DLLDIR : List Char
  BIN_TO_DLLDIR : List Char
  BIN_TO_DATADIR : List Char

/-- The part of `struct stat` that the code reads. -/
structure Stat where
  /-- `S_ISDIR(st_mode)`. -/
  is_dir : Bool
  st_uid : Nat
  /-- `st_dev`, as a 64-bit unsigned quantity. -/
  st_dev : Nat
  /-- `st_ino`, as a 64-bit unsigned quantity. -/
  st_ino : Nat
deriving DecidableEq

/-- What a `stat` call answers. -/
inductive StatResult where
  /-- Returned 0 and filled the buffer. -/
  | ok (st : Stat)
  /-- Returned -1 with `errno == ENOENT`. -/
  | enoent
  /-- Returned -1 with another `errno`. -/
  | error
deriving DecidableEq

/-- The part of `struct passwd` that the code reads. -/
structure Passwd where
  pw_name : Option (List Char)
  pw_dir : Option (List Char)

/-- Answers of the operating system. -/
structure Env where
  getenv : List Char → Option (List Char)
  getuid : Nat
  getpwuid : Nat → Option Passwd
  stat : List Char → StatResult
  /-- Target of a symbolic link, `none` when `readlink` returns -1. -/
  readlink : List Char → Option (List Char)
  /-- The `dli_fname` that `dladdr` reports for this library, `none` when it fails. -/
  dladdr : Option (List Char)
  /-- The current directory, `none` when `getcwd` fails for a reason other than
  `ERANGE`. -/
  getcwd : Option (List Char)

/-- The file-scope variables of `config.c`. -/
structure State where
  bindir : Option (List Char)
  dlldir : Option (List Char)
  datadir : Option (List Char)
  config_dir : Option (List Char)
  server_dir : Option (List Char)
  build_dir : Option (List Char)
  user_name : Option (List Char)
  argv0_name : Option (List Char)
deriving DecidableEq

/-- The state at process start: every pointer is `NULL`. -/
def State.initial : State :=
  ⟨none, none, none, none, none, none, none, none⟩

def server_config_dir : List Char := "/.wine".toList
def server_root_prefix : List Char := "/tmp/.wine".toList
def server_dir_prefix : List Char := "/server-".toList

/-! ## String helpers -/

/-- The C function `strendswith`. -/
def strendswith (str e : List Char) : Bool :=
  let len := str.length
  let tail := e.length
  decide (len ≥ tail) && decide (str.drop (len - tail) = e)

/-- The loop of `remove_trailing_slashes`, on the running value of `len`. -/
def remove_trailing_slashes_len (path : List Char) : Nat → Nat
  | 0 => 0
  | len + 1 =>
    if len + 1 > 1 ∧ path.get? len = some '/' then remove_trailing_slashes_len path len
    else len + 1

/-- The C function `remove_trailing_slashes`: the string is cut at the final `len`. -/
def remove_trailing_slashes (path : List Char) : List Char :=
  path.take (remove_trailing_slashes_len path path.length)

/-- The C function `build_path`. -/
def build_path (dir name : List Char) : List Char :=
  let len := dir.length
  if len ≠ 0 ∧ dir.get? (len - 1) ≠ some '/' then dir ++ '/' :: name
  else dir ++ name

/-- Scan for `c` downwards from position `n - 1`. -/
def strrchr_from (s : List Char) (c : Char) : Nat → Option Nat
  | 0 => none
  | n + 1 => if s.get? n = some c then some n else strrchr_from s c n

/-- The C function `strrchr` for a character other than NUL: the index of the last
occurrence of `c`, `none` for a `NULL` result. -/
def strrchr (s : List Char) (c : Char) : Option Nat :=
  strrchr_from s c s.length

/-! ## printf conversions -/

/-- Conversion `%lx`: lower-case hexadecimal, no padding. -/
def fmt_lx (v : Nat) : List Char := Nat.toDigits 16 v

/-- Conversion `%08lx`: lower-case hexadecimal, zero-padded to width 8. -/
def fmt_08lx (v : Nat) : List Char :=
  let ds := Nat.toDigits 16 v
  List.replicate (8 - ds.length) '0' ++ ds

/-- Conversions `%u` and `%lu`: decimal, no padding. -/
def fmt_u (v : Nat) : List Char := Nat.toDigits 10 v

/-- The cast `(unsigned long)v`. -/
def to_ulong (cfg : Config) (v : Nat) : Nat := v % 2 ^ cfg.ulong_bits

/-- The expression `(unsigned long)((unsigned long long)v >> 32)`. -/
def ulong_high (cfg : Config) (v : Nat) : Nat := to_ulong cfg ((v % 2 ^ 64) / 2 ^ 32)

/-! ## init_server_dir -/

/-- What the first `sprintf` pair of `init_server_dir` writes for `dev`, the trailing
dash included. -/
def server_dir_dev (cfg : Config) (dev : Nat) : List Char :=
  if dev ≠ to_ulong cfg dev then
    fmt_lx (ulong_high cfg dev) ++ fmt_08lx (to_ulong cfg dev) ++ ['-']
  else
    fmt_lx (to_ulong cfg dev) ++ ['-']

/-- What the second `sprintf` pair of `init_server_dir` writes for `ino`. -/
def server_dir_ino (cfg : Config) (ino : Nat) : List Char :=
  if ino ≠ to_ulong cfg ino then
    fmt_lx (ulong_high cfg ino) ++ fmt_08lx (to_ulong cfg ino)
  else
    fmt_lx (to_ulong cfg ino)

/-- The text `init_server_dir` writes at `p`, right after `server_dir_prefix`. -/
def server_dir_suffix (cfg : Config) (dev ino : Nat) : List Char :=
  server_dir_dev cfg dev ++ server_dir_ino cfg ino

/-- The `root` string of `init_server_dir`. -/
def server_root (cfg : Config) (env : Env) (s : State) : List Char :=
  if cfg.android then build_path (s.config_dir.getD []) ".wineserver".toList
  else if cfg.have_getuid then server_root_prefix ++ '-' :: fmt_u env.getuid
  else server_root_prefix

/-- The C function `init_server_dir`. -/
def init_server_dir (cfg : Config) (env : Env) (s : State) (dev ino : Nat) : State :=
  { s with
    server_dir :=
      some (server_root cfg env s ++ server_dir_prefix ++ server_dir_suffix cfg dev ino) }

/-! ## init_paths and the accessors that trigger it -/

/-- The reasons for which the configuration code calls `fatal_error` or
`fatal_perror`. -/
inductive Fatal where
  /-- "cannot determine your user name, set the USER environment variable". -/
  | no_user_name
  /-- "invalid directory %s in WINEPREFIX: not an absolute path". -/
  | wineprefix_not_absolute
  /-- "cannot open %s as specified in WINEPREFIX". -/
  | wineprefix_cannot_open
  /-- "could not determine your home directory". -/
  | no_home
  /-- "your home directory %s is not an absolute path". -/
  | home_not_absolute
  /-- "cannot open %s". -/
  | cannot_open
  /-- "%s is not a directory". -/
  | not_a_directory
  /-- "%s is not owned by you". -/
  | not_owned
  /-- "cannot stat %s". -/
  | cannot_stat
deriving DecidableEq

/-- How a call ends: it returns a value, or the process exits through a fatal error. -/
inductive Outcome (α : Type) where
  | ret (v : α)
  | fatal (e : Fatal)
deriving DecidableEq

/-- A completed call: the file-scope variables at its end, the paths it passed to
`stat` in call order, and how it ended. -/
structure Run (α : Type) where
  state : State
  stats : List (List Char)
  out : Outcome α

/-- The user-name part of `init_paths`: the `user` and `home` locals once the
`HAVE_GETPWUID` conditional is through, or `none` when it dies for lack of a user
name. -/
def init_paths_user (cfg : Config) (env : Env) :
    Option (List Char × Option (List Char)) :=
  let home := env.getenv "HOME".toList
  if cfg.have_getpwuid then
    match env.getpwuid env.getuid with
    | some pwd =>
      let home := if home.isNone then pwd.pw_dir else home
      match pwd.pw_name with
      | some user => some (user, home)
      | none => some (fmt_u (to_ulong cfg env.getuid), home)
    | none => some (fmt_u (to_ulong cfg env.getuid), home)
  else
    match env.getenv "USER".toList with
    | none => none
    | some user => some (user, home)

/-- The tail of `init_paths`, from the `S_ISDIR` test on. -/
def init_paths_check (cfg : Config) (env : Env) (s : State) (dir : List Char)
    (st : Stat) : Run Unit :=
  if !st.is_dir then ⟨s, [dir], .fatal .not_a_directory⟩
  else if cfg.have_getuid && decide (st.st_uid ≠ env.getuid) then
    ⟨s, [dir], .fatal .not_owned⟩
  else ⟨init_server_dir cfg env s st.st_dev st.st_ino, [dir], .ret ()⟩

/-- The C function `init_paths`. -/
def init_paths (cfg : Config) (env : Env) (s : State) : Run Unit :=
  match init_paths_user cfg env with
  | none => ⟨s, [], .fatal .no_user_name⟩
  | some (user, home) =>
    let s1 := { s with user_name := some user }
    match env.getenv "WINEPREFIX".toList with
    | some pfx =>
      let dir := remove_trailing_slashes pfx
      let s2 := { s1 with config_dir := some dir }
      if dir.head? ≠ some '/' then ⟨s2, [], .fatal .wineprefix_not_absolute⟩
      else
        match env.stat dir with
        | .enoent => ⟨s2, [dir], .ret ()⟩
        | .error => ⟨s2, [dir], .fatal .wineprefix_cannot_open⟩
        | .ok st => init_paths_check cfg env s2 dir st
    | none =>
      match home with
      | none => ⟨s1, [], .fatal .no_home⟩
      | some h =>
        if h.head? ≠ some '/' then ⟨s1, [], .fatal .home_not_absolute⟩
        else
          let dir := remove_trailing_slashes h ++ server_config_dir
          let s2 := { s1 with config_dir := some dir }
          match env.stat dir with
          | .enoent => ⟨s2, [dir], .ret ()⟩
          | .error => ⟨s2, [dir], .fatal .cannot_open⟩
          | .ok st => init_paths_check cfg env s2 dir st

/-- A getter that runs `init_paths` first and then reads a variable. -/
def after_init_paths (cfg : Config) (env : Env) (s : State)
    (field : State → Option (List Char)) : Run (Option (List Char)) :=
  let r := init_paths cfg env s
  match r.out with
  | .ret _ => ⟨r.state, r.stats, .ret (field r.state)⟩
  | .fatal e => ⟨r.state, r.stats, .fatal e⟩

/-- The C function `wine_get_config_dir`. -/
def wine_get_config_dir (cfg : Config) (env : Env) (s : State) :
    Run (Option (List Char)) :=
  match s.config_dir with
  | none => after_init_paths cfg env s State.config_dir
  | some d => ⟨s, [], .ret (some d)⟩

/-- The C function `wine_get_server_dir`. -/
def wine_get_server_dir (cfg : Config) (env : Env) (s : State) :
    Run (Option (List Char)) :=
  match s.server_dir with
  | some d => ⟨s, [], .ret (some d)⟩
  | none =>
    match s.config_dir with
    | none => after_init_paths cfg env s State.server_dir
    | some dir =>
      match env.stat dir with
      | .error => ⟨s, [dir], .fatal .cannot_stat⟩
      | .enoent => ⟨s, [dir], .ret none⟩
      | .ok st =>
        let s2 := init_server_dir cfg env s st.st_dev st.st_ino
        ⟨s2, [dir], .ret s2.server_dir⟩

/-- The C function `wine_get_user_name`. -/
def wine_get_user_name (cfg : Config) (env : Env) (s : State) :
    Run (Option (List Char)) :=
  match s.user_name with
  | none => after_init_paths cfg env s State.user_name
  | some u => ⟨s, [], .ret (some u)⟩

/-! ## Locating the running binary -/

/-- The length kept by the three `get_runtime_*dir` functions when the last slash is
at index `p`: the slash itself is kept only when it is the leading one. -/
def dir_len (p : Nat) : Nat := if p = 0 then 1 else p

/-- The C function `get_runtime_libdir`. -/
def get_runtime_libdir (cfg : Config) (env : Env) : Option (List Char) :=
  if cfg.have_dladdr then
    match env.dladdr with
    | some fname =>
      if fname.head? = some '/' then
        match strrchr fname '/' with
        | some p => some (fname.take (dir_len p))
        | none => none
      else none
    | none => none
  else none

/-- The call `readlink( link, buf, size )`: the bytes placed in the buffer, the target
cut to the buffer size, or `none` for -1. -/
def readlink_buf (env : Env) (link : List Char) (size : Nat) : Option (List Char) :=
  (env.readlink link).map (fun target => target.take size)

/-- The `for (size = 256; ; size *= 2)` loop of `get_runtime_exedir`, from the buffer
size `size`. An answer that fills the buffer may be cut, and the loop goes on with twice
the size. -/
def exedir_loop (env : Env) (link : List Char) : Nat → Nat → Option (List Char)
  | 0, _ => none
  | fuel + 1, size =>
    match readlink_buf env link size with
    | none => none
    | some bindir =>
      if bindir.length ≠ size then
        match strrchr bindir '/' with
        | none => none
        | some p => some (bindir.take (dir_len p))
      else exedir_loop env link fuel (size * 2)

/-- The C function `get_runtime_exedir`. One round more than the length of the link
target is enough for the loop to end. -/
def get_runtime_exedir (cfg : Config) (env : Env) : Option (List Char) :=
  match cfg.EXE_LINK with
  | none => none
  | some link =>
    exedir_loop env link (((env.readlink link).map List.length).getD 0 + 1) 256

/-- The `for (size = 256 + len; ; size *= 2)` loop of `get_runtime_argvdir`;
`dir` is the first `len` characters of `argv0`. The call `getcwd( cwd, size - len )`
succeeds when the current directory and its NUL fit, fails with `ERANGE` when they do
not, and may fail for another reason. -/
def argvdir_loop (env : Env) (dir : List Char) (len : Nat) : Nat → Nat → Option (List Char)
  | 0, _ => none
  | fuel + 1, size =>
    match env.getcwd with
    | none => none
    | some cwd =>
      if cwd.length + 1 ≤ size - len then some (cwd ++ '/' :: dir)
      else argvdir_loop env dir len fuel (size * 2)

/-- The C function `get_runtime_argvdir`. One round more than the length of the current
directory is enough for the loop to end. -/
def get_runtime_argvdir (env : Env) (argv0 : List Char) : Option (List Char) :=
  match strrchr argv0 '/' with
  | none => none
  | some p =>
    let len := dir_len p
    if argv0.head? = some '/' then some (argv0.take len)
    else
      argvdir_loop env (argv0.take len) len ((env.getcwd.map List.length).getD 0 + 1)
        (256 + len)

/-- The test `stat( path, &st ) != -1`. -/
def stat_ok (env : Env) (path : List Char) : Bool :=
  match env.stat path with
  | .ok _ => true
  | _ => false

/-- The C function `is_valid_bindir`. -/
def is_valid_bindir (env : Env) (bindir : List Char) : Bool :=
  stat_ok env (build_path bindir "wineserver".toList)

/-- The C function `is_valid_build_dir`, on the first `baselen` characters that the
buffer holds; on success the buffer is cut back to them. -/
def is_valid_build_dir (env : Env) (base : List Char) : Bool :=
  if !stat_ok env (base ++ "/server/wineserver".toList) then false
  else if !stat_ok env (base ++ "/dlls/ntdll/ntdll.dll.so".toList) then false
  else true

/-- The loop `while (p > basedir && *p == '/') p--`, on the index of `p`. -/
def back_over_slashes (basedir : List Char) : Nat → Nat
  | 0 => 0
  | p + 1 => if basedir.get? (p + 1) = some '/' then back_over_slashes basedir p else p + 1

/-- The loop `while (p > basedir && *p != '/') p--`, on the index of `p`. -/
def back_to_slash (basedir : List Char) : Nat → Nat
  | 0 => 0
  | p + 1 => if basedir.get? (p + 1) ≠ some '/' then back_to_slash basedir p else p + 1

/-- The C function `running_from_build_dir`; `basedir` is not empty. -/
def running_from_build_dir (env : Env) (basedir : List Char) : Option (List Char) :=
  let p := basedir.length - 1
  let p := back_over_slashes basedir p
  let p := back_to_slash basedir p
  if p = 0 then none
  else if is_valid_build_dir env (basedir.take p) then some (basedir.take p)
  else
    let p := back_over_slashes basedir p
    let p := back_to_slash basedir p
    if p = 0 || !is_valid_build_dir env (basedir.take p) then none
    else some (basedir.take p)

/-- The `basename` local of `wine_init_argv0_path`. -/
def argv0_basename (argv0 : List Char) : List Char :=
  match strrchr argv0 '/' with
  | none => argv0
  | some p => argv0.drop (p + 1)

/-- The block shared by the first and third strategy of `wine_init_argv0_path`: a
`bindir` that fails validation is tried as a build tree and dropped. -/
def validate_bindir (env : Env) (s : State) : State :=
  match s.bindir with
  | some b =>
    if !is_valid_bindir env b then
      { s with build_dir := running_from_build_dir env b, bindir := none }
    else s
  | none => s

/-- The C function `wine_init_argv0_path`. -/
def wine_init_argv0_path (cfg : Config) (env : Env) (s : State) (argv0 : List Char) :
    State :=
  let basename := argv0_basename argv0
  let s := validate_bindir env { s with bindir := get_runtime_exedir cfg env }
  let libdir := get_runtime_libdir cfg env
  let s :=
    match libdir with
    | some l =>
      if s.bindir.isNone && s.build_dir.isNone then
        let s := { s with build_dir := running_from_build_dir env l }
        if s.build_dir.isNone then { s with bindir := some (build_path l cfg.LIB_TO_BINDIR) }
        else s
      else s
    | none => s
  let s :=
    if libdir.isNone && s.bindir.isNone && s.build_dir.isNone then
      validate_bindir env { s with bindir := get_runtime_argvdir env argv0 }
    else s
  match s.build_dir with
  | some _ => { s with argv0_name := some (build_path "loader/".toList basename) }
  | none =>
    let s :=
      match libdir with
      | some l => { s with dlldir := some (build_path l cfg.LIB_TO_DLLDIR) }
      | none =>
        match s.bindir with
        | some b => { s with dlldir := some (build_path b cfg.BIN_TO_DLLDIR) }
        | none => s
    let s :=
      match s.bindir with
      | some b => { s with datadir := some (build_path b cfg.BIN_TO_DATADIR) }
      | none => s
    { s with argv0_name := some basename }

/-- The C function `wine_get_data_dir`. -/
def wine_get_data_dir (s : State) : Option (List Char) := s.datadir

/-- The C function `wine_get_build_dir`. -/
def wine_get_build_dir (s : State) : Option (List Char) := s.build_dir

/-! ## Launching -/

/-- One `execv` call. `via_preloader` tells the two call sites in `preloader_exec`
apart: the call on the preloader and the call on the target itself. -/
structure ExecCall where
  path : List Char
  argv : List (List Char)
  via_preloader : Bool
deriving DecidableEq

/-- The C function `preloader_exec`: the `execv` calls it makes when each of them
fails. `argv` holds at least `argv[0]`. -/
def preloader_exec (argv : List (List Char)) (use_preloader : Bool) : List ExecCall :=
  let argv0 := argv.headD []
  let wrapped :=
    if use_preloader then
      let p := match strrchr argv0 '/' with
        | none => 0
        | some i => i + 1
      let full_name :=
        argv0.take p ++
          (if strendswith (argv0.drop p) "64".toList then "wine64-preloader".toList
           else "wine-preloader".toList)
      [ExecCall.mk full_name (full_name :: argv) true]
    else []
  wrapped ++ [ExecCall.mk argv0 argv false]

/-- The assignment `argv[0] = path`. -/
def set_argv0 (argv : List (List Char)) (path : List Char) : List (List Char) :=
  path :: argv.tail

/-- The `for (;;)` loop over `PATH` in `wine_exec_wine_binary`, from position `pos`:
the `execv` calls it makes when each of them fails. Every round that does not leave
the loop moves `pos` forward, so `pos.length + 1` rounds are enough. -/
def path_loop (name : List Char) (argv : List (List Char)) (use_preloader : Bool) :
    Nat → List Char → List ExecCall
  | 0, _ => []
  | fuel + 1, pos =>
    let pos := pos.dropWhile (fun c => c = ':')
    if pos.isEmpty then []
    else
      let entry := pos.takeWhile (fun c => c ≠ ':')
      let ptr := pos.dropWhile (fun c => c ≠ ':')
      preloader_exec (set_argv0 argv (entry ++ '/' :: name)) use_preloader
        ++ path_loop name argv use_preloader fuel ptr

/-- The `execv` calls that `wine_exec_wine_binary` makes, in order, when each of them
fails; `none` when `name` and `argv0_name` are both `NULL`. -/
def wine_exec_wine_binary_calls (cfg : Config) (env : Env) (s : State)
    (name : Option (List Char)) (argv : List (List Char))
    (env_var : Option (List Char)) : Option (List ExecCall) :=
  match (match name with | some n => some n | none => s.argv0_name) with
  | none => none
  | some name =>
    let use_preloader := cfg.linux && !strendswith name "wineserver".toList
    let ptr := strrchr name '/'
    let in_build :=
      match ptr, s.build_dir with
      | some _, some b => preloader_exec (set_argv0 argv (build_path b name)) use_preloader
      | _, _ => []
    let name :=
      match ptr with
      | some i => name.drop (i + 1)
      | none => name
    let in_bindir :=
      match s.bindir with
      | some b => preloader_exec (set_argv0 argv (build_path b name)) use_preloader
      | none => []
    let from_env :=
      match env_var with
      | some e => preloader_exec (set_argv0 argv e) use_preloader
      | none => []
    let in_path :=
      match env.getenv "PATH".toList with
      | some path => path_loop name argv use_preloader (path.length + 1) path
      | none => []
    let in_default := preloader_exec (set_argv0 argv (build_path cfg.BINDIR name)) use_preloader
    some (in_build ++ in_bindir ++ from_env ++ in_path ++ in_default)

/-- How a call of `wine_exec_wine_binary` ends. -/
inductive Launch where
  /-- The process image was replaced by this call; nothing after it ran. -/
  | replaced (attempts : List ExecCall) (by_call : ExecCall)
  /-- Every `execv` failed and the function returned to its caller. -/
  | returned (attempts : List ExecCall)
deriving DecidableEq

/-- Issue `calls` in order until `execv` replaces the process; `done` holds the failed
calls so far. -/
def run_calls (execv : ExecCall → Bool) : List ExecCall → List ExecCall → Launch
  | done, [] => .returned done
  | done, c :: rest =>
    if execv c then .replaced done c else run_calls execv (done ++ [c]) rest

/-- The C function `wine_exec_wine_binary`, with `execv` telling which calls succeed;
`none` when `name` and `argv0_name` are both `NULL`. -/
def wine_exec_wine_binary (cfg : Config) (env : Env) (execv : ExecCall → Bool)
    (s : State) (name : Option (List Char)) (argv : List (List Char))
    (env_var : Option (List Char)) : Option Launch :=
  (wine_exec_wine_binary_calls cfg env s name argv env_var).map (run_calls execv [])

/-! ## Definitions used to state and prove the properties -/

/-- Value of a hexadecimal digit character. -/
def hex_val (c : Char) : Nat :=
  if c.toNat < 58 then c.toNat - 48 else c.toNat - 87

/-- Reading a string of hexadecimal digits, most significant first, onto `acc`. -/
def hex_read (acc : Nat) (l : List Char) : Nat :=
  l.foldl (fun a c => 16 * a + hex_val c) acc

/-- One identity number as `init_server_dir` prints it: a single `%lx` group when the
value equals its `unsigned long` truncation, else the high part as `%lx` directly
followed by the truncation as `%08lx`. -/
def id_group (cfg : Config) (v : Nat) : List Char :=
  if v ≠ to_ulong cfg v then fmt_lx (ulong_high cfg v) ++ fmt_08lx (to_ulong cfg v)
  else fmt_lx (to_ulong cfg v)

/-- A 64-bit Linux build with the usual relative offsets. -/
def cfg_linux64 : Config :=
  { ulong_bits := 64, android := false, have_getuid := true, have_getpwuid := true,
    have_dladdr := true, linux := true, EXE_LINK := some "/proc/self/exe".toList,
    BINDIR := "/usr/local/bin".toList, LIB_TO_BINDIR := "../bin".toList,
    LIB_TO_DLLDIR := "wine".toList, BIN_TO_DLLDIR := "../lib/wine".toList,
    BIN_TO_DATADIR := "../share/wine".toList }

/-- The same build with a 32-bit `unsigned long`. -/
def cfg_linux32 : Config := { cfg_linux64 with ulong_bits := 32 }

/-- An environment in which nothing is set and nothing exists. -/
def env_empty : Env :=
  { getenv := fun _ => none, getuid := 1000, getpwuid := fun _ => none,
    stat := fun _ => .enoent, readlink := fun _ => none, dladdr := none, getcwd := none }

/-- Environment variables given as a finite table. -/
def getenv_of (vars : List (String × String)) (key : List Char) : Option (List Char) :=
  (vars.lookup (String.mk key)).map String.toList

/-- First call of the C2 scenario: `WINEPREFIX=/pfx`, and `/pfx` does not exist yet. -/
def env_deferred : Env :=
  { env_empty with getenv := getenv_of [("WINEPREFIX", "/pfx")] }

/-- Later call of the C2 scenario: `/pfx` now exists, as a regular file owned by
user 0 while the process runs as user 1000. -/
def env_foreign_file : Env :=
  { env_deferred with stat := fun _ => .ok ⟨false, 0, 0x803, 0x1234⟩ }

/-- The override `WINEPREFIX=/`, the root directory itself. -/
def env_root_override : Env :=
  { env_empty with getenv := getenv_of [("WINEPREFIX", "/")] }

/-- The override `WINEPREFIX=/a/b///`. -/
def env_slashes_override : Env :=
  { env_empty with getenv := getenv_of [("WINEPREFIX", "/a/b///")] }

/-- The override `WINEPREFIX=relative/path`, with a `stat` that would answer. -/
def env_relative_override : Env :=
  { env_foreign_file with getenv := getenv_of [("WINEPREFIX", "relative/path")] }

/-- The configuration directory `/home/u/.wine` exists as a directory of user 1000,
reached through `HOME`. -/
def env_own_dir : Env :=
  { env_empty with
    getenv := getenv_of [("HOME", "/home/u/")]
    stat := fun p =>
      if p = "/home/u/.wine".toList then .ok ⟨true, 1000, 0x803, 0x1234⟩ else .enoent }

/-- The paths on which `execv` was called directly, the calls on a preloader left
aside. -/
def direct_targets (calls : List ExecCall) : List (List Char) :=
  (calls.filter (fun c => !c.via_preloader)).map ExecCall.path

/-- The base name of a path: what follows its last slash, the whole of it when it has
none. -/
def base_name (name : List Char) : List Char :=
  (name.reverse.takeWhile (fun c => c ≠ '/')).reverse

/-- The non-empty entries of a colon-separated search path, in listed order. -/
def path_entries (path : List Char) : List (List Char) :=
  (path.splitOn ':').filter (fun e => !e.isEmpty)

/-- The launch candidates as the specification lists them: the build directory joined
with the full name when the name has a slash, the binary directory joined with the base
name, the override verbatim, every non-empty `PATH` entry followed by a slash and the
base name, and the compiled-in `BINDIR` joined with the base name. -/
def launch_candidates (cfg : Config) (s : State) (name : List Char)
    (env_var : Option (List Char)) (path : Option (List Char)) : List (List Char) :=
  (match s.build_dir with
    | some b => if '/' ∈ name then [build_path b name] else []
    | none => [])
  ++ (match s.bindir with
    | some b => [build_path b (base_name name)]
    | none => [])
  ++ (match env_var with
    | some e => [e]
    | none => [])
  ++ (match path with
    | some p => (path_entries p).map (fun entry => entry ++ "/".toList ++ base_name name)
    | none => [])
  ++ [build_path cfg.BINDIR (base_name name)]

/-- An environment with `PATH=/usr/bin:/usr/local/bin` and nothing else. -/
def env_search_path : Env :=
  { env_empty with getenv := getenv_of [("PATH", "/usr/bin:/usr/local/bin")] }

/-- A `stat` that succeeds on the listed paths only. -/
def stat_of (existing : List String) (path : List Char) : StatResult :=
  if existing.contains (String.mk path) then .ok ⟨false, 0, 0, 0⟩ else .enoent

/-- An installed layout: the executable is `/usr/bin/wine`, `/usr/bin/wineserver`
exists, and the library is `/usr/lib/libwine.so.1`. -/
def env_installed : Env :=
  { env_empty with
    stat := stat_of ["/usr/bin/wineserver"]
    readlink := fun _ => some "/usr/bin/wine".toList
    dladdr := some "/usr/lib/libwine.so.1".toList }

/-- The same installed layout when `dladdr` fails. -/
def env_installed_no_lib : Env :=
  { env_installed with dladdr := none }

/-- A build tree at `/r` run through `/r/programs/winecfg/winecfg`, whose directory
lies two levels below the root. -/
def env_build_tree : Env :=
  { env_empty with
    stat := stat_of ["/r/server/wineserver", "/r/dlls/ntdll/ntdll.dll.so"]
    readlink := fun _ => some "/r/programs/winecfg/winecfg".toList }

/-- Markers both at `/r` and at `/r/a`, with the executable in `/r/a/b`. -/
def env_nested_trees : Env :=
  { env_empty with
    stat := stat_of ["/r/server/wineserver", "/r/dlls/ntdll/ntdll.dll.so",
      "/r/a/server/wineserver", "/r/a/dlls/ntdll/ntdll.dll.so"]
    readlink := fun _ => some "/r/a/b/wine".toList }

/-- Markers directly under the file-system root, with the executable in `/a/b`. -/
def env_tree_at_root : Env :=
  { env_empty with
    stat := stat_of ["/server/wineserver", "/dlls/ntdll/ntdll.dll.so",
      "//server/wineserver", "//dlls/ntdll/ntdll.dll.so"]
    readlink := fun _ => some "/a/b/wine".toList }

/-- The directory part of a path: everything up to and including its last slash, empty
when it has none. -/
def dir_part (path : List Char) : List Char :=
  (path.reverse.dropWhile (fun c => c ≠ '/')).reverse

/-- The preloader next to a target: the directory part of the target followed by
`wine64-preloader` when the base name of the target ends in `64`, by `wine-preloader`
otherwise. -/
def preloader_path (target : List Char) : List Char :=
  dir_part target ++
    (if "64".toList <:+ base_name target then "wine64-preloader".toList
     else "wine-preloader".toList)

/-- Whether the launcher wraps its attempts for the logical name `name`: the platform
uses the preloader and the name does not end in `wineserver`. -/
def preloader_enabled (cfg : Config) (name : List Char) : Bool :=
  cfg.linux && !decide ("wineserver".toList <:+ name)

/-- The attempts for one candidate as the specification words them; `argv` is the
argument vector of the direct attempt, whose first entry is the target. With wrapping,
first the preloader with its own path put in front of the whole of `argv`, then the
target itself; without, the target only. -/
def candidate_attempts (wrap : Bool) (target : List Char) (argv : List (List Char)) :
    List ExecCall :=
  if wrap then
    [ExecCall.mk (preloader_path target) (preloader_path target :: argv) true,
     ExecCall.mk target argv false]
  else [ExecCall.mk target argv false]

/-- The home directory `init_paths` works with: `HOME`, and when `HOME` is not set, on a
build with `HAVE_GETPWUID`, the `pw_dir` of the account of the caller. -/
def home_dir (cfg : Config) (env : Env) : Option (List Char) :=
  match env.getenv "HOME".toList with
  | some h => some h
  | none => if cfg.have_getpwuid then (env.getpwuid env.getuid).bind Passwd.pw_dir else none

/-- The state left by the deferred first call of the C2 scenario: `config_dir` is
`/pfx` and `server_dir` is still unset. -/
def state_deferred : State :=
  (wine_get_config_dir cfg_linux64 env_deferred State.initial).state

/-- Later call after a deferral: `/pfx` now exists as a directory of the caller. -/
def env_created : Env :=
  { env_deferred with stat := fun _ => .ok ⟨true, 1000, 0x803, 0x1234⟩ }

/-- A location strategy gave something usable: a directory that holds `wineserver`, or
one from which `running_from_build_dir` finds a build tree. -/
def usable_dir (env : Env) (dir : Option (List Char)) : Bool :=
  match dir with
  | none => false
  | some d => is_valid_bindir env d || (running_from_build_dir env d).isSome

/-! # Theorems -/

/-! ## Hexadecimal conversions -/

theorem hex_val_digitChar (k : Nat) (hk : k < 16) : hex_val (Nat.digitChar k) = k := by
  interval_cases k <;> decide

theorem digitChar_ne_dash (k : Nat) (hk : k < 16) : Nat.digitChar k ≠ '-' := by
  interval_cases k <;> decide

theorem hex_read_append (acc : Nat) (a b : List Char) :
    hex_read acc (a ++ b) = hex_read (hex_read acc a) b := by
  simp [hex_read, List.foldl_append]

theorem hex_read_shift (l : List Char) (acc : Nat) :
    hex_read acc l = acc * 16 ^ l.length + hex_read 0 l := by
  induction l using List.reverseRecOn generalizing acc with
  | nil => simp [hex_read]
  | append_singleton l c ih =>
    rw [hex_read_append, hex_read_append, ih]
    simp only [hex_read, List.foldl_cons, List.foldl_nil, List.length_append,
      List.length_singleton, pow_succ]
    have h0 := ih 0
    simp only [hex_read] at h0
    ring

theorem hex_read_zeros (k : Nat) : hex_read 0 (List.replicate k '0') = 0 := by
  induction k with
  | zero => rfl
  | succ k ih =>
    rw [List.replicate_succ]
    simpa [hex_read, hex_val] using ih

theorem hex_read_toDigitsCore (fuel : Nat) :
    ∀ (n : Nat) (acc : List Char), n < fuel →
      hex_read 0 (Nat.toDigitsCore 16 fuel n acc) = hex_read n acc := by
  induction fuel with
  | zero => intro n acc h; omega
  | succ fuel ih =>
    intro n acc h
    have hd : hex_val (Nat.digitChar (n % 16)) = n % 16 :=
      hex_val_digitChar _ (Nat.mod_lt _ (by decide))
    simp only [Nat.toDigitsCore]
    split
    · rename_i h0
      have hn : n % 16 = n := by omega
      rw [hn] at hd
      simp only [hex_read, List.foldl_cons, hd, Nat.mul_zero, Nat.zero_add, hn]
    · rename_i h0
      rw [ih (n / 16) _ (by omega)]
      simp only [hex_read, List.foldl_cons, hd]
      congr 1
      omega

theorem hex_read_fmt_lx (v : Nat) : hex_read 0 (fmt_lx v) = v := by
  unfold fmt_lx Nat.toDigits
  rw [hex_read_toDigitsCore _ _ _ (Nat.lt_succ_self v)]
  rfl

theorem toDigitsCore_no_dash (fuel : Nat) :
    ∀ (n : Nat) (acc : List Char), '-' ∉ acc → '-' ∉ Nat.toDigitsCore 16 fuel n acc := by
  induction fuel with
  | zero => intro n acc h; simpa [Nat.toDigitsCore] using h
  | succ fuel ih =>
    intro n acc h
    have hd := digitChar_ne_dash (n % 16) (Nat.mod_lt _ (by decide))
    have h2 : '-' ∉ Nat.digitChar (n % 16) :: acc := by
      simp only [List.mem_cons, not_or]
      exact ⟨fun e => hd e.symm, h⟩
    simp only [Nat.toDigitsCore]
    split
    · exact h2
    · exact ih _ _ h2

theorem fmt_lx_no_dash (v : Nat) : '-' ∉ fmt_lx v :=
  toDigitsCore_no_dash _ _ _ (by simp)

theorem fmt_08lx_no_dash (v : Nat) : '-' ∉ fmt_08lx v := by
  have h := fmt_lx_no_dash v
  simp only [fmt_08lx, fmt_lx, List.mem_append, not_or] at *
  refine ⟨?_, h⟩
  intro hm
  have := List.eq_of_mem_replicate hm
  exact absurd this (by decide)

theorem fmt_08lx_length (v : Nat) (hv : v < 2 ^ 32) : (fmt_08lx v).length = 8 := by
  have h := Nat.toDigitsCore_length 16 (by decide) (v + 1) v 8 (by omega) (by decide)
  simp only [fmt_08lx, Nat.toDigits, List.length_append, List.length_replicate]
  omega

theorem hex_read_fmt_08lx (v : Nat) : hex_read 0 (fmt_08lx v) = v := by
  have h := hex_read_fmt_lx v
  simp only [fmt_08lx, fmt_lx] at *
  rw [hex_read_append, hex_read_zeros, h]

theorem server_dir_suffix_eq (cfg : Config) (dev ino : Nat) :
    server_dir_suffix cfg dev ino = id_group cfg dev ++ '-' :: id_group cfg ino := by
  unfold server_dir_suffix server_dir_dev server_dir_ino id_group
  split <;> split <;> simp

theorem id_group_no_dash (cfg : Config) (v : Nat) : '-' ∉ id_group cfg v := by
  unfold id_group
  split
  · simp only [List.mem_append, not_or]
    exact ⟨fmt_lx_no_dash _, fmt_08lx_no_dash _⟩
  · exact fmt_lx_no_dash _

theorem hex_read_id_group (cfg : Config) (hw : cfg.ulong_bits = 32 ∨ cfg.ulong_bits = 64)
    (v : Nat) (hv : v < 2 ^ 64) : hex_read 0 (id_group cfg v) = v := by
  unfold id_group
  split
  · rename_i hne
    rcases hw with hw | hw
    · have hlow : to_ulong cfg v < 2 ^ 32 := by
        unfold to_ulong; rw [hw]; exact Nat.mod_lt _ (by decide)
      have hhigh : ulong_high cfg v = v / 2 ^ 32 := by
        unfold ulong_high to_ulong
        rw [hw, Nat.mod_eq_of_lt hv]
        apply Nat.mod_eq_of_lt
        omega
      rw [hex_read_append, hex_read_fmt_lx, hex_read_shift, fmt_08lx_length _ hlow,
        hex_read_fmt_08lx, hhigh]
      unfold to_ulong
      rw [hw]
      omega
    · exfalso
      apply hne
      unfold to_ulong
      rw [hw, Nat.mod_eq_of_lt hv]
  · rename_i heq
    rw [hex_read_fmt_lx]
    exact (not_not.mp heq).symm

theorem append_dash_cancel (a a2 b b2 : List Char) (ha : '-' ∉ a) (ha2 : '-' ∉ a2)
    (h : a ++ '-' :: b = a2 ++ '-' :: b2) : a = a2 ∧ b = b2 := by
  induction a generalizing a2 with
  | nil =>
    cases a2 with
    | nil => simpa using h
    | cons c t =>
      simp only [List.nil_append, List.cons_append, List.cons.injEq] at h
      simp [← h.1] at ha2
  | cons c t ih =>
    cases a2 with
    | nil =>
      simp only [List.nil_append, List.cons_append, List.cons.injEq] at h
      simp [h.1] at ha
    | cons c2 t2 =>
      simp only [List.cons_append, List.cons.injEq] at h
      simp only [List.mem_cons, not_or] at ha ha2
      obtain ⟨h1, h2⟩ := ih t2 ha.2 ha2.2 h.2
      exact ⟨by rw [h.1, h1], h2⟩

/-! ## The instance name -/

/-- C1: the instance-name suffix that `init_server_dir` writes after `/server-` is the
device group, one dash, and the inode group, and it determines the pair: for an
`unsigned long` of 32 or 64 bits and identity numbers below `2 ^ 64`, two pairs give
the same suffix (equivalently the same `server_dir`) exactly when they are equal. -/

theorem init_server_dir_suffix_injective (cfg : Config) (env : Env) (s : State)
    (hw : cfg.ulong_bits = 32 ∨ cfg.ulong_bits = 64)
    (dev ino dev2 ino2 : Nat)
    (hd : dev < 2 ^ 64) (hi : ino < 2 ^ 64) (hd2 : dev2 < 2 ^ 64) (hi2 : ino2 < 2 ^ 64) :
    (init_server_dir cfg env s dev ino).server_dir
        = some (server_root cfg env s ++ server_dir_prefix ++ server_dir_suffix cfg dev ino)
      ∧ server_dir_suffix cfg dev ino = id_group cfg dev ++ '-' :: id_group cfg ino
      ∧ (server_dir_suffix cfg dev ino = server_dir_suffix cfg dev2 ino2
          ↔ dev = dev2 ∧ ino = ino2)
      ∧ ((init_server_dir cfg env s dev ino).server_dir
            = (init_server_dir cfg env s dev2 ino2).server_dir
          ↔ dev = dev2 ∧ ino = ino2) := by
  have key : server_dir_suffix cfg dev ino = server_dir_suffix cfg dev2 ino2
      ↔ dev = dev2 ∧ ino = ino2 := by
    constructor
    · intro h
      rw [server_dir_suffix_eq, server_dir_suffix_eq] at h
      obtain ⟨h1, h2⟩ := append_dash_cancel _ _ _ _ (id_group_no_dash cfg dev)
        (id_group_no_dash cfg dev2) h
      have e1 := congrArg (hex_read 0) h1
      have e2 := congrArg (hex_read 0) h2
      rw [hex_read_id_group cfg hw _ hd, hex_read_id_group cfg hw _ hd2] at e1
      rw [hex_read_id_group cfg hw _ hi, hex_read_id_group cfg hw _ hi2] at e2
      exact ⟨e1, e2⟩
    · rintro ⟨rfl, rfl⟩
      rfl
  refine ⟨rfl, server_dir_suffix_eq cfg dev ino, key, ?_⟩
  simp only [init_server_dir, Option.some.injEq, List.append_cancel_left_eq]
  exact key

/-- Witness for C1: a device number that needs two groups on a 32-bit build. -/
theorem init_server_dir_suffix_injective_witness :
    (cfg_linux32.ulong_bits = 32 ∨ cfg_linux32.ulong_bits = 64)
      ∧ 0x1200000803 < 2 ^ 64 ∧ 0x1234ab < 2 ^ 64 ∧ 0x803 < 2 ^ 64
      ∧ server_dir_suffix cfg_linux32 0x1200000803 0x1234ab = "1200000803-1234ab".toList
      ∧ (init_server_dir cfg_linux32 env_empty State.initial 0x1200000803 0x1234ab).server_dir
          = some "/tmp/.wine-1000/server-1200000803-1234ab".toList
      ∧ (server_dir_suffix cfg_linux32 0x1200000803 0x1234ab
            = server_dir_suffix cfg_linux32 0x803 0x1234ab
          ↔ 0x1200000803 = 0x803 ∧ 0x1234ab = 0x1234ab) :=
  ⟨by decide, by decide, by decide, by decide, by decide, by decide,
    (init_server_dir_suffix_injective cfg_linux32 env_empty State.initial (Or.inl rfl)
      0x1200000803 0x1234ab 0x803 0x1234ab (by decide) (by decide) (by decide)
      (by decide)).2.2.1⟩

/-! ## Configuration directory -/

/-- C2, evaluated: after a first resolution that was deferred because `/pfx` did not
exist, `wine_get_server_dir` finds `/pfx` to be a regular file owned by another user,
does not die and names `server_dir` after it; the same file met on a first resolution is
fatal. -/
theorem wine_get_server_dir_retry_skips_checks :
    (wine_get_config_dir cfg_linux64 env_deferred State.initial).out
        = .ret (some "/pfx".toList)
      ∧ (wine_get_config_dir cfg_linux64 env_deferred State.initial).state.server_dir = none
      ∧ env_foreign_file.stat "/pfx".toList = .ok ⟨false, 0, 0x803, 0x1234⟩
      ∧ env_foreign_file.getuid = 1000
      ∧ (wine_get_server_dir cfg_linux64 env_foreign_file
            (wine_get_config_dir cfg_linux64 env_deferred State.initial).state).out
          = .ret (some "/tmp/.wine-1000/server-803-1234".toList)
      ∧ (wine_get_server_dir cfg_linux64 env_foreign_file
            (wine_get_config_dir cfg_linux64 env_deferred State.initial).state).state.server_dir
          = some "/tmp/.wine-1000/server-803-1234".toList
      ∧ (wine_get_server_dir cfg_linux64 env_foreign_file State.initial).out
          = .fatal .not_a_directory := by
  decide

theorem remove_trailing_slashes_len_le (path : List Char) (n : Nat) :
    remove_trailing_slashes_len path n ≤ n := by
  induction n with
  | zero => simp [remove_trailing_slashes_len]
  | succ n ih =>
    unfold remove_trailing_slashes_len
    split
    · omega
    · omega

theorem remove_trailing_slashes_len_pos (path : List Char) (n : Nat) (hn : 0 < n) :
    0 < remove_trailing_slashes_len path n := by
  induction n with
  | zero => omega
  | succ n ih =>
    unfold remove_trailing_slashes_len
    split
    · rename_i h
      exact ih (by omega)
    · omega

/-- Everything the loop of `remove_trailing_slashes` steps over is a slash. -/
theorem remove_trailing_slashes_len_cut (path : List Char) (n : Nat) (i : Nat)
    (h1 : remove_trailing_slashes_len path n ≤ i) (h2 : i < n) :
    path.get? i = some '/' := by
  induction n with
  | zero => omega
  | succ n ih =>
    unfold remove_trailing_slashes_len at h1
    split at h1
    · rename_i h
      by_cases hi : i = n
      · rw [hi]; exact h.2
      · exact ih h1 (by omega)
    · omega

/-- Where the loop of `remove_trailing_slashes` stops, either one character is left or
the last one kept is not a slash. -/
theorem remove_trailing_slashes_len_stop (path : List Char) (n : Nat) :
    remove_trailing_slashes_len path n ≤ 1
      ∨ path.get? (remove_trailing_slashes_len path n - 1) ≠ some '/' := by
  induction n with
  | zero => left; simp [remove_trailing_slashes_len]
  | succ n ih =>
    unfold remove_trailing_slashes_len
    split
    · exact ih
    · rename_i h
      by_cases hn : n + 1 ≤ 1
      · left; exact hn
      · right
        intro hc
        exact h ⟨by omega, by simpa using hc⟩

theorem remove_trailing_slashes_head (path : List Char) :
    (remove_trailing_slashes path).head? = path.head? := by
  unfold remove_trailing_slashes
  cases path with
  | nil => simp
  | cons c t =>
    have h := remove_trailing_slashes_len_pos (c :: t) (c :: t).length (by simp)
    obtain ⟨k, hk⟩ : ∃ k, remove_trailing_slashes_len (c :: t) (c :: t).length = k + 1 :=
      ⟨_, (Nat.succ_pred_eq_of_pos h).symm⟩
    rw [hk]
    simp

theorem remove_trailing_slashes_split (path : List Char) :
    ∃ k, path = remove_trailing_slashes path ++ List.replicate k '/' := by
  refine ⟨path.length - remove_trailing_slashes_len path path.length, ?_⟩
  unfold remove_trailing_slashes
  conv_lhs => rw [← List.take_append_drop (remove_trailing_slashes_len path path.length) path]
  congr 1
  apply List.ext_get?
  intro i
  by_cases hi : i < path.length - remove_trailing_slashes_len path path.length
  · rw [List.get?_eq_getElem?, List.getElem?_drop, ← List.get?_eq_getElem?]
    rw [remove_trailing_slashes_len_cut path path.length _ (by omega) (by omega)]
    simp [List.getElem?_replicate, hi]
  · have h1 : (List.drop (remove_trailing_slashes_len path path.length) path).get? i = none := by
      apply List.get?_eq_none.mpr
      simp only [List.length_drop]
      omega
    rw [h1]
    symm
    apply List.get?_eq_none.mpr
    simp only [List.length_replicate]
    omega

theorem remove_trailing_slashes_last (path : List Char) :
    (remove_trailing_slashes path).length ≤ 1
      ∨ (remove_trailing_slashes path).getLast? ≠ some '/' := by
  have hle := remove_trailing_slashes_len_le path path.length
  have hlen : (remove_trailing_slashes path).length
      = remove_trailing_slashes_len path path.length := by
    unfold remove_trailing_slashes
    rw [List.length_take]
    omega
  rcases remove_trailing_slashes_len_stop path path.length with h | h
  · left; omega
  · by_cases h1 : remove_trailing_slashes_len path path.length ≤ 1
    · left; omega
    · right
      rw [List.getLast?_eq_getElem?, hlen]
      unfold remove_trailing_slashes
      rw [List.getElem?_take_of_lt (by omega)]
      simpa using h
theorem init_paths_user_some (cfg : Config) (env : Env)
    (hu : cfg.have_getpwuid = true ∨ env.getenv "USER".toList ≠ none) :
    ∃ u h, init_paths_user cfg env = some (u, h) := by
  unfold init_paths_user
  rcases hu with hu | hu
  · simp only [hu, if_true]
    split
    · split <;> exact ⟨_, _, rfl⟩
    · exact ⟨_, _, rfl⟩
  · cases hg : cfg.have_getpwuid
    · simp only [Bool.false_eq_true, if_false]
      cases hU : env.getenv "USER".toList with
      | none => exact absurd hU hu
      | some u => exact ⟨_, _, rfl⟩
    · simp only [if_true]
      split
      · split <;> exact ⟨_, _, rfl⟩
      · exact ⟨_, _, rfl⟩

/-- C6: with a `WINEPREFIX` that does not start with a slash (the empty string
included), `init_paths` ends in a fatal error and has issued no `stat` call. -/
theorem init_paths_relative_override_fatal (cfg : Config) (env : Env) (s : State)
    (pfx : List Char) (hp : env.getenv "WINEPREFIX".toList = some pfx)
    (hrel : pfx.head? ≠ some '/') :
    ((init_paths cfg env s).out = .fatal .wineprefix_not_absolute
        ∨ (init_paths cfg env s).out = .fatal .no_user_name)
      ∧ (init_paths cfg env s).stats = [] := by
  unfold init_paths
  cases hu : init_paths_user cfg env with
  | none => simp
  | some uh =>
    obtain ⟨u, h⟩ := uh
    simp only [hp, remove_trailing_slashes_head, hrel, ne_eq, not_false_eq_true, if_true]
    simp

/-- Witness for C6: `WINEPREFIX=relative/path`. -/
theorem init_paths_relative_override_fatal_witness :
    env_relative_override.getenv "WINEPREFIX".toList = some "relative/path".toList
      ∧ "relative/path".toList.head? ≠ some '/'
      ∧ (init_paths cfg_linux64 env_relative_override State.initial).out
          = .fatal .wineprefix_not_absolute
      ∧ (init_paths cfg_linux64 env_relative_override State.initial).stats = [] :=
  ⟨by decide, by decide, by decide,
    (init_paths_relative_override_fatal cfg_linux64 env_relative_override State.initial
      "relative/path".toList (by decide) (by decide)).2⟩

/-- C5, refuted as stated: for the absolute override `/` the stored `config_dir` is
`/`, which ends in a separator. -/
theorem init_paths_root_override_keeps_slash :
    env_root_override.getenv "WINEPREFIX".toList = some "/".toList
      ∧ (init_paths cfg_linux64 env_root_override State.initial).state.config_dir
          = some "/".toList
      ∧ "/".toList.getLast? = some '/' := by
  decide

/-- C5, amended: for an absolute `WINEPREFIX`, once the user name is determined (always
with `HAVE_GETPWUID`, else when `USER` is set), the `config_dir` stored by `init_paths`
is the override cut by `remove_trailing_slashes`: the override is `config_dir` followed
by slashes only, `config_dir` is absolute, and it does not end in a slash unless it is
`/` itself. -/
theorem init_paths_override_config_dir (cfg : Config) (env : Env) (s : State)
    (pfx : List Char) (hp : env.getenv "WINEPREFIX".toList = some pfx)
    (habs : pfx.head? = some '/')
    (hu : cfg.have_getpwuid = true ∨ env.getenv "USER".toList ≠ none) :
    ∃ dir, (init_paths cfg env s).state.config_dir = some dir
      ∧ (∃ k, pfx = dir ++ List.replicate k '/')
      ∧ dir.head? = some '/'
      ∧ (dir = ['/'] ∨ dir.getLast? ≠ some '/') := by
  have hhead : (remove_trailing_slashes pfx).head? = some '/' := by
    rw [remove_trailing_slashes_head]; exact habs
  have hcfg : (init_paths cfg env s).state.config_dir = some (remove_trailing_slashes pfx) := by
    obtain ⟨u, h, hu2⟩ := init_paths_user_some cfg env hu
    unfold init_paths
    simp only [hu2, hp, hhead, ne_eq, not_true_eq_false, if_false]
    cases hst : env.stat (remove_trailing_slashes pfx) with
    | enoent => rfl
    | error => rfl
    | ok st =>
      simp only [init_paths_check]
      split
      · rfl
      · split
        · rfl
        · rfl
  refine ⟨remove_trailing_slashes pfx, hcfg, remove_trailing_slashes_split pfx, hhead, ?_⟩
  rcases remove_trailing_slashes_last pfx with h | h
  · left
    cases hd : remove_trailing_slashes pfx with
    | nil => rw [hd] at hhead; simp at hhead
    | cons c t =>
      rw [hd] at hhead h
      simp only [List.head?_cons, Option.some.injEq] at hhead
      simp only [List.length_cons] at h
      have : t = [] := List.length_eq_zero.mp (by omega)
      rw [hhead, this]
  · right; exact h

/-- Witness for C5: `WINEPREFIX=/a/b///` gives `/a/b`. -/
theorem init_paths_override_config_dir_witness :
    env_slashes_override.getenv "WINEPREFIX".toList = some "/a/b///".toList
      ∧ "/a/b///".toList.head? = some '/'
      ∧ (cfg_linux64.have_getpwuid = true
          ∨ env_slashes_override.getenv "USER".toList ≠ none)
      ∧ (init_paths cfg_linux64 env_slashes_override State.initial).state.config_dir
          = some "/a/b".toList
      ∧ ∃ dir, (init_paths cfg_linux64 env_slashes_override State.initial).state.config_dir
            = some dir
          ∧ (∃ k, "/a/b///".toList = dir ++ List.replicate k '/')
          ∧ dir.head? = some '/'
          ∧ (dir = ['/'] ∨ dir.getLast? ≠ some '/') :=
  ⟨by decide, by decide, Or.inl rfl, by decide,
    init_paths_override_config_dir cfg_linux64 env_slashes_override State.initial
      "/a/b///".toList (by decide) (by decide) (Or.inl rfl)⟩

theorem init_server_dir_server_dir_ne_nil (cfg : Config) (env : Env) (s : State)
    (dev ino : Nat) :
    ∃ sd, (init_server_dir cfg env s dev ino).server_dir = some sd ∧ sd ≠ []
      ∧ sd = server_root cfg env s ++ server_dir_prefix ++ server_dir_suffix cfg dev ino := by
  refine ⟨_, rfl, ?_, rfl⟩
  simp [ server_dir_prefix]

/-- What `init_paths` does once it has reached its `stat` call on `dir`: the state `s2`
at that point has `config_dir` set to `dir` and the old `server_dir`, and the answer of
`stat` decides the rest. -/
theorem init_paths_of_stats (cfg : Config) (env : Env) (s : State) (dir : List Char)
    (hq : (init_paths cfg env s).stats = [dir]) :
    ∃ s2 e, s2.server_dir = s.server_dir ∧ s2.config_dir = some dir
      ∧ init_paths cfg env s =
        (match env.stat dir with
          | .enoent => ⟨s2, [dir], .ret ()⟩
          | .error => ⟨s2, [dir], .fatal e⟩
          | .ok st => init_paths_check cfg env s2 dir st) := by
  have hcheck : ∀ (s2 : State) (d : List Char) (st : Stat),
      (init_paths_check cfg env s2 d st).stats = [d] := by
    intro s2 d st
    unfold init_paths_check
    split
    · rfl
    · split <;> rfl
  unfold init_paths at hq ⊢
  cases hu : init_paths_user cfg env with
  | none => rw [hu] at hq; simp at hq
  | some uh =>
    obtain ⟨u, h⟩ := uh
    rw [hu] at hq
    simp only at hq ⊢
    cases hp : env.getenv "WINEPREFIX".toList with
    | some pfx =>
      rw [hp] at hq
      simp only at hq ⊢
      by_cases hrel : (remove_trailing_slashes pfx).head? ≠ some '/'
      · rw [if_pos hrel] at hq; simp at hq
      · rw [if_neg hrel] at hq ⊢
        have hd : remove_trailing_slashes pfx = dir := by
          cases hst : env.stat (remove_trailing_slashes pfx) with
          | enoent => rw [hst] at hq; simpa using hq
          | error => rw [hst] at hq; simpa using hq
          | ok st => rw [hst] at hq; simpa [hcheck] using hq
        rw [hd]
        exact ⟨{ { s with user_name := some u } with config_dir := some dir },
          .wineprefix_cannot_open, rfl, rfl, rfl⟩
    | none =>
      rw [hp] at hq
      simp only at hq ⊢
      cases h with
      | none => simp at hq
      | some home =>
        simp only at hq ⊢
        by_cases hrel : home.head? ≠ some '/'
        · rw [if_pos hrel] at hq; simp at hq
        · rw [if_neg hrel] at hq ⊢
          have hd : remove_trailing_slashes home ++ server_config_dir = dir := by
            cases hst : env.stat (remove_trailing_slashes home ++ server_config_dir) with
            | enoent => rw [hst] at hq; simpa using hq
            | error => rw [hst] at hq; simpa using hq
            | ok st => rw [hst] at hq; simpa [hcheck] using hq
          rw [hd]
          exact ⟨{ { s with user_name := some u } with config_dir := some dir },
            .cannot_open, rfl, rfl, rfl⟩
theorem init_paths_check_accepts (cfg : Config) (env : Env) (s : State) (dir : List Char)
    (st : Stat) (hdir : st.is_dir = true) (hown : st.st_uid = env.getuid) :
    init_paths_check cfg env s dir st
      = ⟨init_server_dir cfg env s st.st_dev st.st_ino, [dir], .ret ()⟩ := by
  simp [init_paths_check, hdir, hown]

theorem init_paths_check_rejects (cfg : Config) (env : Env) (s : State) (dir : List Char)
    (st : Stat)
    (hbad : st.is_dir = false ∨ (cfg.have_getuid = true ∧ st.st_uid ≠ env.getuid)) :
    (init_paths_check cfg env s dir st).state = s
      ∧ ((init_paths_check cfg env s dir st).out = .fatal .not_a_directory
        ∨ (init_paths_check cfg env s dir st).out = .fatal .not_owned) := by
  unfold init_paths_check
  rcases hbad with h | ⟨h1, h2⟩
  · simp [h]
  · cases hd : st.is_dir
    · simp
    · simp [h1, h2]

/-- First resolution, the part of C2 that holds: when `init_paths` reaches its `stat`
call and the directory is not a directory, or (with `HAVE_GETUID`) belongs to somebody
else, it ends in a fatal error and leaves `server_dir` as it was. -/
theorem init_paths_rejects_foreign (cfg : Config) (env : Env) (s : State)
    (dir : List Char) (st : Stat)
    (hq : (init_paths cfg env s).stats = [dir]) (hst : env.stat dir = .ok st)
    (hbad : st.is_dir = false ∨ (cfg.have_getuid = true ∧ st.st_uid ≠ env.getuid)) :
    ((init_paths cfg env s).out = .fatal .not_a_directory
        ∨ (init_paths cfg env s).out = .fatal .not_owned)
      ∧ (init_paths cfg env s).state.server_dir = s.server_dir := by
  obtain ⟨s2, e, h1, _, h3⟩ := init_paths_of_stats cfg env s dir hq
  rw [hst] at h3
  simp only at h3
  obtain ⟨h4, h5⟩ := init_paths_check_rejects cfg env s2 dir st hbad
  rw [h3, h4]
  exact ⟨h5, h1⟩

theorem after_init_paths_stats (cfg : Config) (env : Env) (s : State)
    (field : State → Option (List Char)) :
    (after_init_paths cfg env s field).stats = (init_paths cfg env s).stats := by
  unfold after_init_paths
  dsimp only
  split <;> rfl

theorem wine_get_server_dir_of_set (cfg : Config) (env : Env) (s : State)
    (sd : List Char) (h : s.server_dir = some sd) :
    wine_get_server_dir cfg env s = ⟨s, [], .ret (some sd)⟩ := by
  unfold wine_get_server_dir
  rw [h]

theorem init_paths_user_home (cfg : Config) (env : Env)
    (hu : cfg.have_getpwuid = true ∨ env.getenv "USER".toList ≠ none) :
    ∃ u, init_paths_user cfg env = some (u, home_dir cfg env) := by
  have key : cfg.have_getpwuid = true →
      ∃ u, init_paths_user cfg env = some (u, home_dir cfg env) := by
    intro hg
    unfold init_paths_user home_dir
    simp only [hg, if_true]
    cases hpw : env.getpwuid env.getuid with
    | none =>
      cases hh : env.getenv "HOME".toList <;> exact ⟨_, rfl⟩
    | some pwd =>
      dsimp only
      cases hn : pwd.pw_name <;> cases hh : env.getenv "HOME".toList <;>
        exact ⟨_, rfl⟩
  rcases hu with hu | hu
  · exact key hu
  · cases hg : cfg.have_getpwuid
    · unfold init_paths_user home_dir
      simp only [hg, Bool.false_eq_true, if_false]
      cases hU : env.getenv "USER".toList with
      | none => exact absurd hU hu
      | some u =>
        cases hh : env.getenv "HOME".toList <;> exact ⟨_, rfl⟩
    · exact key hg

/-- First resolution from the inputs: with a user name, an absolute override (or no
override and an absolute home directory), and the resulting directory answered by
`stat` as a directory of the caller, `init_paths` issues that one `stat`, stores the
directory in `config_dir` and calls `init_server_dir`. -/
theorem init_paths_accepts (cfg : Config) (env : Env) (s : State) (dir : List Char)
    (st : Stat)
    (hu : cfg.have_getpwuid = true ∨ env.getenv "USER".toList ≠ none)
    (hcand :
      (∃ pfx, env.getenv "WINEPREFIX".toList = some pfx ∧ pfx.head? = some '/'
          ∧ dir = remove_trailing_slashes pfx)
        ∨ (env.getenv "WINEPREFIX".toList = none
          ∧ ∃ h, home_dir cfg env = some h ∧ h.head? = some '/'
            ∧ dir = remove_trailing_slashes h ++ server_config_dir))
    (hst : env.stat dir = .ok st) (hdir : st.is_dir = true)
    (hown : st.st_uid = env.getuid) :
    ∃ u, init_paths cfg env s
      = ⟨init_server_dir cfg env
            { { s with user_name := some u } with config_dir := some dir }
            st.st_dev st.st_ino, [dir], .ret ()⟩ := by
  obtain ⟨u, hu2⟩ := init_paths_user_home cfg env hu
  refine ⟨u, ?_⟩
  unfold init_paths
  rcases hcand with ⟨pfx, hp, habs, hd⟩ | ⟨hp, h, hh, habs, hd⟩
  · have hhead : (remove_trailing_slashes pfx).head? = some '/' := by
      rw [remove_trailing_slashes_head]; exact habs
    simp only [hu2, hp, hhead, ne_eq, not_true_eq_false, if_false]
    rw [← hd, hst]
    exact init_paths_check_accepts cfg env _ dir st hdir hown
  · simp only [hu2, hp, hh, habs, ne_eq, not_true_eq_false, if_false]
    rw [← hd, hst]
    exact init_paths_check_accepts cfg env _ dir st hdir hown

/-- C7: let `server_dir` be unset and let `dir` be the configuration directory of the
call: the `config_dir` left by an earlier deferred resolution, or, on a first
resolution with a user name, the absolute `WINEPREFIX` cut of its trailing slashes, or
without `WINEPREFIX` the absolute home directory cut of its trailing slashes followed by
`/.wine`. When `stat` answers that `dir` is a directory of the caller,
`wine_get_server_dir` issues that one `stat`, returns normally a non-empty `server_dir`
(the root, `/server-` and the instance name of the directory) and has `config_dir` set
to `dir`; any later call, whatever the environment then answers, returns the same
string, issues no `stat` and leaves the state as it is. -/
theorem wine_get_server_dir_computed_once (cfg : Config) (env : Env) (s : State)
    (dir : List Char) (st : Stat)
    (hs : s.server_dir = none)
    (hcase : s.config_dir = some dir
      ∨ (s.config_dir = none
        ∧ (cfg.have_getpwuid = true ∨ env.getenv "USER".toList ≠ none)
        ∧ ((∃ pfx, env.getenv "WINEPREFIX".toList = some pfx ∧ pfx.head? = some '/'
              ∧ dir = remove_trailing_slashes pfx)
          ∨ (env.getenv "WINEPREFIX".toList = none
            ∧ ∃ h, home_dir cfg env = some h ∧ h.head? = some '/'
              ∧ dir = remove_trailing_slashes h ++ server_config_dir))))
    (hst : env.stat dir = .ok st)
    (hdir : st.is_dir = true) (hown : st.st_uid = env.getuid) :
    ∃ sd, sd ≠ []
      ∧ (wine_get_server_dir cfg env s).stats = [dir]
      ∧ (wine_get_server_dir cfg env s).out = .ret (some sd)
      ∧ (wine_get_server_dir cfg env s).state.server_dir = some sd
      ∧ (wine_get_server_dir cfg env s).state.config_dir = some dir
      ∧ sd = server_root cfg env (wine_get_server_dir cfg env s).state
              ++ server_dir_prefix ++ server_dir_suffix cfg st.st_dev st.st_ino
      ∧ ∀ env2 : Env,
          wine_get_server_dir cfg env2 (wine_get_server_dir cfg env s).state
            = ⟨(wine_get_server_dir cfg env s).state, [], .ret (some sd)⟩ := by
  have main : ∃ s2, s2.config_dir = some dir ∧ wine_get_server_dir cfg env s
      = ⟨init_server_dir cfg env s2 st.st_dev st.st_ino, [dir],
          .ret (init_server_dir cfg env s2 st.st_dev st.st_ino).server_dir⟩ := by
    unfold wine_get_server_dir
    rw [hs]
    rcases hcase with hcd | ⟨hcd, hu, hcand⟩
    · rw [hcd]
      simp only
      rw [hst]
      exact ⟨s, hcd, rfl⟩
    · rw [hcd]
      simp only
      obtain ⟨u, h3⟩ := init_paths_accepts cfg env s dir st hu hcand hst hdir hown
      refine ⟨{ { s with user_name := some u } with config_dir := some dir }, rfl, ?_⟩
      unfold after_init_paths
      rw [h3]
  obtain ⟨s2, hc, h⟩ := main
  rw [h]
  refine ⟨server_root cfg env s2 ++ server_dir_prefix
    ++ server_dir_suffix cfg st.st_dev st.st_ino, ?_, rfl, rfl, rfl, hc, rfl, ?_⟩
  · simp [ server_dir_prefix]
  · intro env2
    exact wine_get_server_dir_of_set cfg env2 _ _ rfl

/-- Witness for C7, on both paths. First resolution: `HOME=/home/u/` and
`/home/u/.wine` is a directory of the caller; the second call runs in an environment
where nothing exists any more. Retry: the earlier call was deferred with `config_dir`
set to `/pfx`, which has since been created. -/
theorem wine_get_server_dir_computed_once_witness :
    (State.initial.server_dir = none
      ∧ State.initial.config_dir = none
      ∧ env_own_dir.getenv "WINEPREFIX".toList = none
      ∧ home_dir cfg_linux64 env_own_dir = some "/home/u/".toList
      ∧ "/home/u/.wine".toList
          = remove_trailing_slashes "/home/u/".toList ++ server_config_dir
      ∧ env_own_dir.stat "/home/u/.wine".toList = .ok ⟨true, 1000, 0x803, 0x1234⟩
      ∧ env_own_dir.getuid = 1000
      ∧ (wine_get_server_dir cfg_linux64 env_own_dir State.initial).out
          = .ret (some "/tmp/.wine-1000/server-803-1234".toList)
      ∧ (wine_get_server_dir cfg_linux64 env_empty
            (wine_get_server_dir cfg_linux64 env_own_dir State.initial).state).out
          = .ret (some "/tmp/.wine-1000/server-803-1234".toList)
      ∧ ∃ sd, sd ≠ []
          ∧ (wine_get_server_dir cfg_linux64 env_own_dir State.initial).stats
              = ["/home/u/.wine".toList]
          ∧ (wine_get_server_dir cfg_linux64 env_own_dir State.initial).out = .ret (some sd)
          ∧ (wine_get_server_dir cfg_linux64 env_own_dir State.initial).state.server_dir
              = some sd
          ∧ (wine_get_server_dir cfg_linux64 env_own_dir State.initial).state.config_dir
              = some "/home/u/.wine".toList
          ∧ sd = server_root cfg_linux64 env_own_dir
                  (wine_get_server_dir cfg_linux64 env_own_dir State.initial).state
                ++ server_dir_prefix ++ server_dir_suffix cfg_linux64 0x803 0x1234
          ∧ ∀ env2 : Env,
              wine_get_server_dir cfg_linux64 env2
                  (wine_get_server_dir cfg_linux64 env_own_dir State.initial).state
                = ⟨(wine_get_server_dir cfg_linux64 env_own_dir State.initial).state, [],
                    .ret (some sd)⟩)
    ∧ (state_deferred.server_dir = none
      ∧ state_deferred.config_dir = some "/pfx".toList
      ∧ env_created.stat "/pfx".toList = .ok ⟨true, 1000, 0x803, 0x1234⟩
      ∧ env_created.getuid = 1000
      ∧ (wine_get_server_dir cfg_linux64 env_created state_deferred).out
          = .ret (some "/tmp/.wine-1000/server-803-1234".toList)
      ∧ ∃ sd, sd ≠ []
          ∧ (wine_get_server_dir cfg_linux64 env_created state_deferred).stats
              = ["/pfx".toList]
          ∧ (wine_get_server_dir cfg_linux64 env_created state_deferred).out = .ret (some sd)
          ∧ (wine_get_server_dir cfg_linux64 env_created state_deferred).state.server_dir
              = some sd
          ∧ (wine_get_server_dir cfg_linux64 env_created state_deferred).state.config_dir
              = some "/pfx".toList
          ∧ sd = server_root cfg_linux64 env_created
                  (wine_get_server_dir cfg_linux64 env_created state_deferred).state
                ++ server_dir_prefix ++ server_dir_suffix cfg_linux64 0x803 0x1234
          ∧ ∀ env2 : Env,
              wine_get_server_dir cfg_linux64 env2
                  (wine_get_server_dir cfg_linux64 env_created state_deferred).state
                = ⟨(wine_get_server_dir cfg_linux64 env_created state_deferred).state, [],
                    .ret (some sd)⟩) :=
  ⟨⟨rfl, rfl, by decide, by decide, by decide, by decide, by decide, by decide, by decide,
      wine_get_server_dir_computed_once cfg_linux64 env_own_dir State.initial
        "/home/u/.wine".toList ⟨true, 1000, 0x803, 0x1234⟩ rfl
        (Or.inr ⟨rfl, Or.inl rfl,
          Or.inr ⟨by decide, "/home/u/".toList, by decide, by decide, by decide⟩⟩)
        (by decide) rfl rfl⟩,
    ⟨by decide, by decide, by decide, by decide, by decide,
      wine_get_server_dir_computed_once cfg_linux64 env_created state_deferred
        "/pfx".toList ⟨true, 1000, 0x803, 0x1234⟩ (by decide) (Or.inl (by decide))
        (by decide) rfl rfl⟩⟩

/-! ## Launch candidates -/

theorem strrchr_from_none (s : List Char) (c : Char) (n : Nat)
    (h : strrchr_from s c n = none) : ∀ i, i < n → s.get? i ≠ some c := by
  induction n with
  | zero => intro i hi; omega
  | succ n ih =>
    unfold strrchr_from at h
    split at h
    · cases h
    · rename_i hn
      intro i hi
      by_cases hin : i = n
      · rw [hin]; exact hn
      · exact ih h i (by omega)

theorem strrchr_from_some (s : List Char) (c : Char) (n p : Nat)
    (h : strrchr_from s c n = some p) :
    p < n ∧ s.get? p = some c ∧ ∀ j, p < j → j < n → s.get? j ≠ some c := by
  induction n with
  | zero => simp [strrchr_from] at h
  | succ n ih =>
    unfold strrchr_from at h
    split at h
    · rename_i hn
      cases h
      exact ⟨by omega, hn, fun j h1 h2 => by omega⟩
    · rename_i hn
      obtain ⟨h1, h2, h3⟩ := ih h
      refine ⟨by omega, h2, ?_⟩
      intro j hj1 hj2
      by_cases hjn : j = n
      · rw [hjn]; exact hn
      · exact h3 j hj1 (by omega)

theorem strrchr_none (s : List Char) (c : Char) (h : strrchr s c = none) : c ∉ s := by
  intro hm
  obtain ⟨i, hi, he⟩ := List.getElem_of_mem hm
  have := strrchr_from_none s c s.length h i hi
  apply this
  rw [List.get?_eq_getElem?, List.getElem?_eq_getElem hi, he]

/-- The index `strrchr` returns splits the string at its last occurrence of `c`. -/
theorem strrchr_some (s : List Char) (c : Char) (p : Nat) (h : strrchr s c = some p) :
    s = s.take p ++ c :: s.drop (p + 1) ∧ c ∉ s.drop (p + 1) := by
  obtain ⟨h1, h2, h3⟩ := strrchr_from_some s c s.length p h
  constructor
  · conv_lhs => rw [← List.take_append_drop p s]
    congr 1
    rw [List.get?_eq_getElem?, List.getElem?_eq_getElem h1] at h2
    rw [List.drop_eq_getElem_cons h1]
    simp only [Option.some.injEq] at h2
    rw [h2]
  · intro hm
    obtain ⟨i, hi, he⟩ := List.getElem_of_mem hm
    rw [List.getElem_drop] at he
    simp only [List.length_drop] at hi
    apply h3 (p + 1 + i) (by omega) (by omega)
    rw [List.get?_eq_getElem?, List.getElem?_eq_getElem (by omega), he]

theorem base_name_of_no_slash (name : List Char) (h : '/' ∉ name) :
    base_name name = name := by
  unfold base_name
  rw [List.takeWhile_eq_self_iff.mpr, List.reverse_reverse]
  intro c hc
  have : c ≠ '/' := fun e => h (e ▸ List.mem_reverse.mp hc)
  simpa using this

theorem base_name_of_split (a b : List Char) (h : '/' ∉ b) :
    base_name (a ++ '/' :: b) = b := by
  unfold base_name
  rw [List.reverse_append, List.reverse_cons, List.append_assoc]
  rw [List.takeWhile_append_of_pos]
  · simp
  · intro c hc
    have : c ≠ '/' := fun e => h (e ▸ List.mem_reverse.mp hc)
    simpa using this

/-- The name `wine_exec_wine_binary` goes on with after `name = ptr + 1` is the base
name. -/
theorem base_name_eq_strrchr (name : List Char) :
    (match strrchr name '/' with
      | some i => name.drop (i + 1)
      | none => name) = base_name name := by
  cases h : strrchr name '/' with
  | none => exact (base_name_of_no_slash name (strrchr_none name '/' h)).symm
  | some p =>
    obtain ⟨h1, h2⟩ := strrchr_some name '/' p h
    simp only
    conv_rhs => rw [h1]
    exact (base_name_of_split _ _ h2).symm

theorem strrchr_isSome_iff (name : List Char) :
    (strrchr name '/').isSome = true ↔ '/' ∈ name := by
  cases h : strrchr name '/' with
  | none => simpa using strrchr_none name '/' h
  | some p =>
    obtain ⟨h1, _⟩ := strrchr_some name '/' p h
    simp only [Option.isSome_some, true_iff]
    rw [h1]
    simp
theorem direct_targets_append (a b : List ExecCall) :
    direct_targets (a ++ b) = direct_targets a ++ direct_targets b := by
  simp [direct_targets]

/-- Of the calls of one `preloader_exec`, exactly the last is direct, on `argv[0]`. -/
theorem direct_targets_preloader_exec (argv : List (List Char)) (path : List Char)
    (use_preloader : Bool) :
    direct_targets (preloader_exec (set_argv0 argv path) use_preloader) = [path] := by
  cases use_preloader <;> simp [preloader_exec, direct_targets, set_argv0]

/-- One step of splitting at colons: the first piece is what precedes the first colon,
and the rest is the split of what follows it. -/
theorem splitOn_colon_step (l : List Char) :
    l.splitOn ':' = l.takeWhile (fun c => c ≠ ':')
      :: (match l.dropWhile (fun c => c ≠ ':') with
          | [] => []
          | _ :: rest => rest.splitOn ':') := by
  induction l with
  | nil => simp [List.splitOn, List.splitOnP_nil]
  | cons x xs ih =>
    unfold List.splitOn at ih ⊢
    rw [List.splitOnP_cons]
    by_cases hx : x = ':'
    · simp [hx]
    · simp only [beq_iff_eq, hx, if_false]
      rw [ih]
      simp [hx, List.modifyHead]

theorem dropWhile_head_false (p : Char → Bool) (l : List Char) (y : Char) (ys : List Char)
    (h : l.dropWhile p = y :: ys) : p y = false := by
  induction l with
  | nil => simp at h
  | cons x xs ih =>
    by_cases hx : p x = true
    · rw [List.dropWhile_cons_of_pos hx] at h
      exact ih h
    · rw [List.dropWhile_cons_of_neg hx] at h
      simp only [List.cons.injEq] at h
      rw [← h.1]
      simpa using hx

theorem path_entries_nil : path_entries [] = [] := by
  simp [path_entries, List.splitOn, List.splitOnP_nil]

theorem path_entries_colon (l : List Char) : path_entries (':' :: l) = path_entries l := by
  unfold path_entries
  rw [splitOn_colon_step]
  simp

theorem path_entries_dropWhile (l : List Char) :
    path_entries (l.dropWhile (fun c => c = ':')) = path_entries l := by
  induction l with
  | nil => rfl
  | cons x xs ih =>
    by_cases hx : x = ':'
    · rw [List.dropWhile_cons_of_pos (by simpa using hx), ih, hx, path_entries_colon]
    · rw [List.dropWhile_cons_of_neg (by simpa using hx)]

theorem path_entries_cons (x : Char) (xs : List Char) (hx : x ≠ ':') :
    path_entries (x :: xs) = (x :: xs).takeWhile (fun c => c ≠ ':')
      :: path_entries ((x :: xs).dropWhile (fun c => c ≠ ':')) := by
  have htw : (x :: xs).takeWhile (fun c => c ≠ ':') = x :: xs.takeWhile (fun c => c ≠ ':') :=
    List.takeWhile_cons_of_pos (by simpa using hx)
  conv_lhs => unfold path_entries; rw [splitOn_colon_step]
  rw [List.filter_cons_of_pos (by rw [htw]; rfl)]
  congr 1
  cases hd : (x :: xs).dropWhile (fun c => c ≠ ':') with
  | nil => simp [path_entries_nil]
  | cons y ys =>
    have hy : y = ':' := by
      have := dropWhile_head_false _ _ _ _ hd
      simpa using this
    simp only
    rw [hy, path_entries_colon]
    rfl

theorem length_dropWhile_le (p : Char → Bool) (l : List Char) :
    (l.dropWhile p).length ≤ l.length := by
  induction l with
  | nil => simp
  | cons x xs ih =>
    unfold List.dropWhile
    split
    · simp only [List.length_cons]; omega
    · simp

/-- The loop over `PATH` tries, directly, every non-empty entry followed by a slash and
the name, in listed order; `pos.length + 1` rounds are enough for it to finish. -/
theorem direct_targets_path_loop (name : List Char) (argv : List (List Char))
    (use_preloader : Bool) (fuel : Nat) :
    ∀ pos : List Char, pos.length < fuel →
      direct_targets (path_loop name argv use_preloader fuel pos)
        = (path_entries pos).map (fun entry => entry ++ "/".toList ++ name) := by
  induction fuel with
  | zero => intro pos h; omega
  | succ fuel ih =>
    intro pos h
    unfold path_loop
    simp only
    rw [← path_entries_dropWhile pos]
    have hlen := length_dropWhile_le (fun c => decide (c = ':')) pos
    cases hd : pos.dropWhile (fun c => decide (c = ':')) with
    | nil => simp [path_entries_nil, direct_targets]
    | cons x xs =>
      have hx : x ≠ ':' := by
        have := dropWhile_head_false _ _ _ _ hd
        simpa using this
      rw [hd] at hlen
      have hlen2 := length_dropWhile_le (fun c => decide (c ≠ ':')) (x :: xs)
      have hlen3 : ((x :: xs).dropWhile (fun c => decide (c ≠ ':'))).length < fuel := by
        have h4 : ((x :: xs).dropWhile (fun c => decide (c ≠ ':'))).length ≤ xs.length := by
          rw [List.dropWhile_cons_of_pos (by simpa using hx)]
          exact length_dropWhile_le _ xs
        simp only [List.length_cons] at hlen
        omega
      simp only [List.isEmpty_cons, Bool.false_eq_true, if_false]
      rw [direct_targets_append, direct_targets_preloader_exec, ih _ hlen3,
        path_entries_cons x xs hx]
      simp
theorem run_calls_all_fail (calls done : List ExecCall) :
    run_calls (fun _ => false) done calls = .returned (done ++ calls) := by
  induction calls generalizing done with
  | nil => simp [run_calls]
  | cons c rest ih =>
    unfold run_calls
    simp only [Bool.false_eq_true, if_false]
    rw [ih]
    simp

theorem direct_targets_calls (cfg : Config) (env : Env) (s : State) (name : List Char)
    (argv : List (List Char)) (env_var : Option (List Char)) :
    ∃ calls, wine_exec_wine_binary_calls cfg env s (some name) argv env_var = some calls
      ∧ direct_targets calls
          = launch_candidates cfg s name env_var (env.getenv "PATH".toList) := by
  refine ⟨_, rfl, ?_⟩
  simp only [direct_targets_append, launch_candidates, base_name_eq_strrchr]
  congr 1
  congr 1
  · congr 1
    · congr 1
      · cases hb : s.build_dir with
        | none => cases strrchr name '/' <;> rfl
        | some b =>
          cases hp : strrchr name '/' with
          | none =>
            have : '/' ∉ name := strrchr_none name '/' hp
            simp [this, direct_targets]
          | some p =>
            have : '/' ∈ name := (strrchr_isSome_iff name).mp (by rw [hp]; rfl)
            simp [this, direct_targets_preloader_exec]
      · cases s.bindir with
        | none => rfl
        | some b => simp [direct_targets_preloader_exec]
    · cases env_var with
      | none => rfl
      | some e => simp [direct_targets_preloader_exec]
  · cases env.getenv "PATH".toList with
    | none => rfl
    | some path =>
      simp only
      exact direct_targets_path_loop _ _ _ _ path (Nat.lt_succ_self _)
  · exact direct_targets_preloader_exec _ _ _

/-- C3: when every `execv` fails, `wine_exec_wine_binary` returns after calls whose
direct targets are, in order: `build_dir` joined with the full name (name with a slash,
`build_dir` set), `bindir` joined with the base name (`bindir` set), the override as
given, every non-empty `PATH` entry followed by a slash and the base name, and `BINDIR`
joined with the base name. This holds for a name that is passed and for the default
name `argv0_name`. With `bindir = /opt/rt/bin`, no build directory, no override and
`PATH=/usr/bin:/usr/local/bin` the targets are the four paths listed. -/
theorem wine_exec_wine_binary_candidates (cfg : Config) (env : Env) (s : State)
    (name : List Char) (argv : List (List Char)) (env_var : Option (List Char)) :
    (∃ calls,
        wine_exec_wine_binary cfg env (fun _ => false) s (some name) argv env_var
          = some (.returned calls)
        ∧ direct_targets calls
            = launch_candidates cfg s name env_var (env.getenv "PATH".toList))
      ∧ (∃ calls,
        wine_exec_wine_binary cfg env (fun _ => false) { s with argv0_name := some name }
            none argv env_var
          = some (.returned calls)
        ∧ direct_targets calls
            = launch_candidates cfg s name env_var (env.getenv "PATH".toList))
      ∧ (∃ calls,
        wine_exec_wine_binary cfg
            { env with
              getenv := fun k =>
                if k = "PATH".toList then some "/usr/bin:/usr/local/bin".toList
                else env.getenv k }
            (fun _ => false)
            { s with bindir := some "/opt/rt/bin".toList, build_dir := none }
            (some name) argv none
          = some (.returned calls)
        ∧ direct_targets calls
            = ["/opt/rt/bin/".toList ++ base_name name, "/usr/bin/".toList ++ base_name name,
                "/usr/local/bin/".toList ++ base_name name,
                build_path cfg.BINDIR (base_name name)]) := by
  refine ⟨?_, ?_, ?_⟩
  · obtain ⟨calls, h1, h2⟩ := direct_targets_calls cfg env s name argv env_var
    refine ⟨calls, ?_, h2⟩
    unfold wine_exec_wine_binary
    rw [h1]
    simp [run_calls_all_fail]
  · obtain ⟨calls, h1, h2⟩ := direct_targets_calls cfg env s name argv env_var
    refine ⟨calls, ?_, h2⟩
    unfold wine_exec_wine_binary
    have : wine_exec_wine_binary_calls cfg env { s with argv0_name := some name } none argv
        env_var = wine_exec_wine_binary_calls cfg env s (some name) argv env_var := rfl
    rw [this, h1]
    simp [run_calls_all_fail]
  · obtain ⟨calls, h1, h2⟩ := direct_targets_calls cfg
      { env with
        getenv := fun k =>
          if k = "PATH".toList then some "/usr/bin:/usr/local/bin".toList else env.getenv k }
      { s with bindir := some "/opt/rt/bin".toList, build_dir := none } name argv none
    refine ⟨calls, ?_, ?_⟩
    · unfold wine_exec_wine_binary
      rw [h1]
      simp [run_calls_all_fail]
    · rw [h2]
      have hp : path_entries "/usr/bin:/usr/local/bin".toList
          = ["/usr/bin".toList, "/usr/local/bin".toList] := by decide
      have hb : ∀ n : List Char,
          build_path "/opt/rt/bin".toList n = "/opt/rt/bin/".toList ++ n := by
        intro n
        unfold build_path
        rw [if_pos (by decide)]
        rfl
      simp only [launch_candidates, if_true, hp, hb]
      rfl
/-- C4, refuted as stated: with every `execv` failing, the call for `wineserver` in an
empty environment tries `BINDIR/wineserver` and then returns to its caller. -/
theorem wine_exec_wine_binary_returns_to_caller :
    wine_exec_wine_binary cfg_linux64 env_empty (fun _ => false) State.initial
        (some "wineserver".toList) ["wineserver".toList] none
      = some (.returned
          [ExecCall.mk "/usr/local/bin/wineserver".toList ["/usr/local/bin/wineserver".toList]
            false]) := by
  decide

/-- C4, amended: when a name is available and every `execv` fails,
`wine_exec_wine_binary` makes all its calls and returns to the caller; it never ends the
process itself. -/
theorem wine_exec_wine_binary_returns_on_failure (cfg : Config) (env : Env)
    (execv : ExecCall → Bool) (s : State) (name : Option (List Char))
    (argv : List (List Char)) (env_var : Option (List Char))
    (hn : name ≠ none ∨ s.argv0_name ≠ none) (hfail : ∀ c, execv c = false) :
    ∃ calls, wine_exec_wine_binary_calls cfg env s name argv env_var = some calls
      ∧ wine_exec_wine_binary cfg env execv s name argv env_var = some (.returned calls) := by
  have hf : execv = fun _ => false := funext hfail
  have hsome : ∃ calls, wine_exec_wine_binary_calls cfg env s name argv env_var
      = some calls := by
    cases name with
    | some n => exact ⟨_, rfl⟩
    | none =>
      cases ha : s.argv0_name with
      | some n =>
        unfold wine_exec_wine_binary_calls
        simp only [ha]
        exact ⟨_, rfl⟩
      | none => simp [ha] at hn
  obtain ⟨calls, hc⟩ := hsome
  refine ⟨calls, hc, ?_⟩
  unfold wine_exec_wine_binary
  rw [hc, hf]
  simp [run_calls_all_fail]

/-- Witness for C4: the default loader name, a binary directory and a `PATH`. -/
theorem wine_exec_wine_binary_returns_on_failure_witness :
    ((none : Option (List Char)) ≠ none
        ∨ ({ State.initial with
              bindir := some "/opt/rt/bin".toList, argv0_name := some "wine".toList } : State
            ).argv0_name ≠ none)
      ∧ (∀ c : ExecCall, (fun _ => false) c = false)
      ∧ ∃ calls,
          wine_exec_wine_binary_calls cfg_linux64 env_search_path
              { State.initial with
                bindir := some "/opt/rt/bin".toList, argv0_name := some "wine".toList }
              none ["wine".toList, "a.exe".toList] none = some calls
          ∧ wine_exec_wine_binary cfg_linux64 env_search_path (fun _ => false)
              { State.initial with
                bindir := some "/opt/rt/bin".toList, argv0_name := some "wine".toList }
              none ["wine".toList, "a.exe".toList] none = some (.returned calls) :=
  ⟨Or.inr (by decide), fun _ => rfl,
    wine_exec_wine_binary_returns_on_failure cfg_linux64 env_search_path (fun _ => false)
      { State.initial with
        bindir := some "/opt/rt/bin".toList, argv0_name := some "wine".toList }
      none ["wine".toList, "a.exe".toList] none (Or.inr (by decide)) (fun _ => rfl)⟩

/-! ## Locating the installation -/

theorem exedir_loop_eq (env : Env) (link target : List Char)
    (ht : env.readlink link = some target) (fuel : Nat) :
    ∀ size, 0 < size → target.length < size + fuel →
      exedir_loop env link (fuel + 1) size
        = (match strrchr target '/' with
            | none => none
            | some p => some (target.take (dir_len p))) := by
  induction fuel with
  | zero =>
    intro size _ hlen
    unfold exedir_loop readlink_buf
    have htk : target.take size = target := List.take_of_length_le (by omega)
    simp only [ht, Option.map_some', htk]
    rw [if_pos (by omega)]
  | succ fuel ih =>
    intro size hpos hlen
    unfold exedir_loop readlink_buf
    simp only [ht, Option.map_some']
    by_cases hfit : target.length < size
    · have htk : target.take size = target := List.take_of_length_le (by omega)
      rw [htk, if_pos (by omega)]
    · have hl : (target.take size).length = size := by
        rw [List.length_take]; omega
      rw [if_neg (by simpa using hl)]
      exact ih (size * 2) (by omega) (by omega)

/-- The buffer-doubling loop of `get_runtime_exedir` ends with the whole link target in
the buffer: the result is the target cut at its last slash. -/
theorem get_runtime_exedir_eq (cfg : Config) (env : Env) :
    get_runtime_exedir cfg env
      = (match cfg.EXE_LINK with
          | none => none
          | some link =>
            match env.readlink link with
            | none => none
            | some target =>
              match strrchr target '/' with
              | none => none
              | some p => some (target.take (dir_len p))) := by
  unfold get_runtime_exedir
  cases cfg.EXE_LINK with
  | none => rfl
  | some link =>
    cases ht : env.readlink link with
    | none => simp [ht, exedir_loop, readlink_buf]
    | some target =>
      simp only [ht, Option.map_some', Option.getD_some]
      exact exedir_loop_eq env link target ht target.length 256 (by decide) (by omega)

theorem argvdir_loop_eq (env : Env) (dir cwd : List Char) (len : Nat)
    (hc : env.getcwd = some cwd) (fuel : Nat) :
    ∀ size, len < size → cwd.length + 1 ≤ size - len + fuel →
      argvdir_loop env dir len (fuel + 1) size = some (cwd ++ '/' :: dir) := by
  induction fuel with
  | zero =>
    intro size _ hfit
    unfold argvdir_loop
    simp only [hc]
    rw [if_pos (by omega)]
  | succ fuel ih =>
    intro size hlt hfit
    unfold argvdir_loop
    simp only [hc]
    by_cases h : cwd.length + 1 ≤ size - len
    · rw [if_pos h]
    · rw [if_neg h]
      exact ih (size * 2) (by omega) (by omega)

/-- The buffer-doubling loop of `get_runtime_argvdir` ends with the current directory in
the buffer: a relative `argv0` with a slash is made absolute by putting the current
directory and a slash in front of its directory part. -/
theorem get_runtime_argvdir_eq (env : Env) (argv0 : List Char) :
    get_runtime_argvdir env argv0
      = (match strrchr argv0 '/' with
          | none => none
          | some p =>
            if argv0.head? = some '/' then some (argv0.take (dir_len p))
            else
              match env.getcwd with
              | none => none
              | some cwd => some (cwd ++ '/' :: argv0.take (dir_len p))) := by
  unfold get_runtime_argvdir
  cases strrchr argv0 '/' with
  | none => rfl
  | some p =>
    simp only
    split
    · rfl
    · cases hc : env.getcwd with
      | none => simp [hc, argvdir_loop]
      | some cwd =>
        simp only [hc, Option.map_some', Option.getD_some]
        exact argvdir_loop_eq env _ cwd _ hc cwd.length _ (by omega) (by omega)

theorem back_over_slashes_stay (s : List Char) (p : Nat) (h : s.get? p ≠ some '/') :
    back_over_slashes s p = p := by
  cases p with
  | zero => rfl
  | succ p => unfold back_over_slashes; rw [if_neg h]

theorem get?_block_sep (a c rest : List Char) :
    (a ++ '/' :: (c ++ rest)).get? a.length = some '/' := by
  rw [List.get?_eq_getElem?, List.getElem?_append_right (le_refl _)]
  simp

theorem get?_block_inner (a c rest : List Char) (hc : '/' ∉ c) (k : Nat)
    (hk : k < c.length) : (a ++ '/' :: (c ++ rest)).get? (a.length + k + 1) ≠ some '/' := by
  have h1 : (a ++ '/' :: (c ++ rest)).get? (a.length + k + 1) = some (c.get ⟨k, hk⟩) := by
    rw [List.get?_eq_getElem?, List.getElem?_append_right (by omega)]
    have : a.length + k + 1 - a.length = k + 1 := by omega
    rw [this, List.getElem?_cons_succ, List.getElem?_append_left hk,
      List.getElem?_eq_getElem hk]
    rfl
  rw [h1]
  intro e
  simp only [Option.some.injEq] at e
  exact hc (e ▸ List.get_mem c k hk)

/-- Walking back from the last character of a slash-free component stops on the slash
in front of it. -/
theorem back_to_slash_block (a c rest : List Char) (hc : '/' ∉ c) :
    ∀ k, k ≤ c.length → back_to_slash (a ++ '/' :: (c ++ rest)) (a.length + k) = a.length := by
  intro k
  induction k with
  | zero =>
    intro _
    cases ha : a.length with
    | zero => rfl
    | succ m =>
      simp only [Nat.add_zero]
      unfold back_to_slash
      have := get?_block_sep a c rest
      rw [ha] at this
      rw [if_neg (by simpa using this)]
  | succ k ih =>
    intro hk
    have hne := get?_block_inner a c rest hc k (by omega)
    have : a.length + (k + 1) = (a.length + k) + 1 := by omega
    rw [this]
    unfold back_to_slash
    rw [if_pos hne]
    exact ih (by omega)

/-- Removing two components: for `basedir = root/c1/c2` with a non-empty `root`, when
`root/c1` fails the marker check and `root` passes it, `running_from_build_dir` answers
`root`. -/
theorem running_from_build_dir_two_up (env : Env) (root c1 c2 : List Char)
    (hroot : root ≠ []) (hc1 : c1 ≠ []) (hs1 : '/' ∉ c1) (hc2 : c2 ≠ []) (hs2 : '/' ∉ c2)
    (hlevel1 : is_valid_build_dir env (root ++ '/' :: c1) = false)
    (hlevel2 : is_valid_build_dir env root = true) :
    running_from_build_dir env (root ++ '/' :: (c1 ++ '/' :: c2)) = some root := by
  have hl1 : 0 < c1.length := List.length_pos.mpr hc1
  have hl2 : 0 < c2.length := List.length_pos.mpr hc2
  have hr : 0 < root.length := List.length_pos.mpr hroot
  -- the same string, bracketed around the second separator
  have hassoc : root ++ '/' :: (c1 ++ '/' :: c2) = (root ++ '/' :: c1) ++ '/' :: (c2 ++ []) := by
    simp
  have hlen : (root ++ '/' :: (c1 ++ '/' :: c2)).length
      = (root ++ '/' :: c1).length + c2.length + 1 := by
    simp only [List.length_append, List.length_cons]; omega
  -- first component
  have hlast : (root ++ '/' :: (c1 ++ '/' :: c2)).get?
      ((root ++ '/' :: (c1 ++ '/' :: c2)).length - 1) ≠ some '/' := by
    have := get?_block_inner (root ++ '/' :: c1) c2 [] hs2 (c2.length - 1) (by omega)
    rw [← hassoc] at this
    have e : (root ++ '/' :: (c1 ++ '/' :: c2)).length - 1
        = (root ++ '/' :: c1).length + (c2.length - 1) + 1 := by omega
    rw [e]; exact this
  have hp1 : back_to_slash (root ++ '/' :: (c1 ++ '/' :: c2))
      ((root ++ '/' :: (c1 ++ '/' :: c2)).length - 1) = (root ++ '/' :: c1).length := by
    have := back_to_slash_block (root ++ '/' :: c1) c2 [] hs2 c2.length (le_refl _)
    rw [← hassoc] at this
    have e : (root ++ '/' :: (c1 ++ '/' :: c2)).length - 1
        = (root ++ '/' :: c1).length + c2.length := by omega
    rw [e]; exact this
  have htake1 : (root ++ '/' :: (c1 ++ '/' :: c2)).take (root ++ '/' :: c1).length
      = root ++ '/' :: c1 := by
    rw [hassoc]; exact List.take_left' rfl
  -- second component
  have hp1len : (root ++ '/' :: c1).length = (root.length + (c1.length - 1) + 1) + 1 := by
    simp only [List.length_append, List.length_cons]; omega
  have hsep : (root ++ '/' :: (c1 ++ '/' :: c2)).get? ((root.length + (c1.length - 1) + 1) + 1)
      = some '/' := by
    have := get?_block_sep (root ++ '/' :: c1) c2 []
    rw [← hassoc, hp1len] at this
    exact this
  have hin : (root ++ '/' :: (c1 ++ '/' :: c2)).get? (root.length + (c1.length - 1) + 1)
      ≠ some '/' :=
    get?_block_inner root c1 ('/' :: c2) hs1 (c1.length - 1) (by omega)
  have hp2a : back_over_slashes (root ++ '/' :: (c1 ++ '/' :: c2)) (root ++ '/' :: c1).length
      = root.length + (c1.length - 1) + 1 := by
    rw [hp1len]
    conv_lhs => unfold back_over_slashes
    rw [if_pos hsep]
    exact back_over_slashes_stay _ _ hin
  have hp2 : back_to_slash (root ++ '/' :: (c1 ++ '/' :: c2))
      (root.length + (c1.length - 1) + 1) = root.length := by
    have := back_to_slash_block root c1 ('/' :: c2) hs1 c1.length (le_refl _)
    have e : root.length + (c1.length - 1) + 1 = root.length + c1.length := by omega
    rw [e]; exact this
  have htake2 : (root ++ '/' :: (c1 ++ '/' :: c2)).take root.length = root :=
    List.take_left' rfl
  unfold running_from_build_dir
  simp only
  rw [back_over_slashes_stay _ _ hlast, hp1, htake1, hp2a, hp2, htake2, hlevel1, hlevel2]
  have h0 : (root ++ '/' :: c1).length ≠ 0 := by
    simp
  have h1 : root.length ≠ 0 := by omega
  simp [h0, h1]

theorem is_valid_build_dir_of_markers (env : Env) (base : List Char)
    (hm1 : stat_ok env (base ++ "/server/wineserver".toList) = true)
    (hm2 : stat_ok env (base ++ "/dlls/ntdll/ntdll.dll.so".toList) = true) :
    is_valid_build_dir env base = true := by
  unfold is_valid_build_dir
  rw [hm1, hm2]
  rfl

/-- C8, refuted as stated, on two inputs. With the executable in `/r/a/b` and both
markers under `/r` and under `/r/a`, `build_dir` is `/r/a`, the first level tried, and
not `/r`. With the executable in `/a/b` and both markers directly under the file-system
root, no build directory is found at all. -/
theorem wine_init_argv0_path_build_dir_other_level :
    (get_runtime_exedir cfg_linux64 env_nested_trees = some "/r/a/b".toList
        ∧ is_valid_bindir env_nested_trees "/r/a/b".toList = false
        ∧ stat_ok env_nested_trees "/r/server/wineserver".toList = true
        ∧ stat_ok env_nested_trees "/r/dlls/ntdll/ntdll.dll.so".toList = true
        ∧ (wine_init_argv0_path cfg_linux64 env_nested_trees State.initial
              "wine".toList).build_dir = some "/r/a".toList)
      ∧ (get_runtime_exedir cfg_linux64 env_tree_at_root = some "/a/b".toList
        ∧ is_valid_bindir env_tree_at_root "/a/b".toList = false
        ∧ stat_ok env_tree_at_root "/server/wineserver".toList = true
        ∧ stat_ok env_tree_at_root "/dlls/ntdll/ntdll.dll.so".toList = true
        ∧ (wine_init_argv0_path cfg_linux64 env_tree_at_root State.initial
              "wine".toList).build_dir = none) := by
  decide

/-- C8, amended: let the directory of the running executable be `root/c1/c2` with a
non-empty `root`, let it fail `is_valid_bindir`, let `root/c1` fail the marker check and
let both markers exist under `root`. Then `wine_init_argv0_path` from the initial state
sets `build_dir` to `root`, leaves `bindir`, `dlldir` and `datadir` unset, and sets
`argv0_name` to `loader/` followed by the base name of `argv0`. -/
theorem wine_init_argv0_path_build_tree (cfg : Config) (env : Env)
    (argv0 root c1 c2 : List Char)
    (hexe : get_runtime_exedir cfg env = some (root ++ '/' :: (c1 ++ '/' :: c2)))
    (hroot : root ≠ []) (hc1 : c1 ≠ []) (hs1 : '/' ∉ c1) (hc2 : c2 ≠ []) (hs2 : '/' ∉ c2)
    (hinvalid : is_valid_bindir env (root ++ '/' :: (c1 ++ '/' :: c2)) = false)
    (hlevel1 : is_valid_build_dir env (root ++ '/' :: c1) = false)
    (hm1 : stat_ok env (root ++ "/server/wineserver".toList) = true)
    (hm2 : stat_ok env (root ++ "/dlls/ntdll/ntdll.dll.so".toList) = true) :
    (wine_init_argv0_path cfg env State.initial argv0).build_dir = some root
      ∧ (wine_init_argv0_path cfg env State.initial argv0).bindir = none
      ∧ (wine_init_argv0_path cfg env State.initial argv0).dlldir = none
      ∧ (wine_init_argv0_path cfg env State.initial argv0).datadir = none
      ∧ (wine_init_argv0_path cfg env State.initial argv0).argv0_name
          = some ("loader/".toList ++ base_name argv0) := by
  have hb := running_from_build_dir_two_up env root c1 c2 hroot hc1 hs1 hc2 hs2 hlevel1
    (is_valid_build_dir_of_markers env root hm1 hm2)
  have hbase : argv0_basename argv0 = base_name argv0 := by
    have h := base_name_eq_strrchr argv0
    unfold argv0_basename
    cases hp : strrchr argv0 '/' <;> rw [hp] at h <;> exact h
  have hloader : ∀ n : List Char, build_path "loader/".toList n = "loader/".toList ++ n := by
    intro n
    unfold build_path
    rw [if_neg (by decide)]
  unfold wine_init_argv0_path validate_bindir
  cases hl : get_runtime_libdir cfg env <;>
    simp [State.initial, hexe, hinvalid, hb, hbase] <;>
    exact hloader _

/-- Witness for C8: the build tree `/r` run through `/r/programs/winecfg/winecfg`. -/
theorem wine_init_argv0_path_build_tree_witness :
    get_runtime_exedir cfg_linux64 env_build_tree
        = some ("/r".toList ++ '/' :: ("programs".toList ++ '/' :: "winecfg".toList))
      ∧ is_valid_bindir env_build_tree "/r/programs/winecfg".toList = false
      ∧ is_valid_build_dir env_build_tree "/r/programs".toList = false
      ∧ stat_ok env_build_tree "/r/server/wineserver".toList = true
      ∧ stat_ok env_build_tree "/r/dlls/ntdll/ntdll.dll.so".toList = true
      ∧ (wine_init_argv0_path cfg_linux64 env_build_tree State.initial
            "./winecfg".toList).build_dir = some "/r".toList
      ∧ (wine_init_argv0_path cfg_linux64 env_build_tree State.initial
            "./winecfg".toList).argv0_name = some "loader/winecfg".toList
      ∧ (wine_init_argv0_path cfg_linux64 env_build_tree State.initial
            "./winecfg".toList).bindir = none :=
  ⟨by decide, by decide, by decide, by decide, by decide, by decide, by decide,
    (wine_init_argv0_path_build_tree cfg_linux64 env_build_tree "./winecfg".toList
      "/r".toList "programs".toList "winecfg".toList (by decide) (by decide) (by decide)
      (by decide) (by decide) (by decide) (by decide) (by decide) (by decide)
      (by decide)).2.1⟩

/-- C9, refuted as stated: in an installed layout where `dladdr` finds the library in
`/usr/lib`, `dlldir` is `/usr/lib/wine`, taken from the library directory, and not
`bindir` joined with `BIN_TO_DLLDIR`. -/
theorem wine_init_argv0_path_dlldir_from_libdir :
    get_runtime_exedir cfg_linux64 env_installed = some "/usr/bin".toList
      ∧ is_valid_bindir env_installed "/usr/bin".toList = true
      ∧ (wine_init_argv0_path cfg_linux64 env_installed State.initial "wine".toList).bindir
          = some "/usr/bin".toList
      ∧ (wine_init_argv0_path cfg_linux64 env_installed State.initial "wine".toList).dlldir
          = some "/usr/lib/wine".toList
      ∧ build_path "/usr/bin".toList cfg_linux64.BIN_TO_DLLDIR = "/usr/bin/../lib/wine".toList := by
  decide

/-- C9, amended: when the directory of the running executable contains `wineserver`,
`wine_init_argv0_path` from the initial state sets `bindir` to that directory, `datadir`
to `bindir` joined with `BIN_TO_DATADIR`, leaves `build_dir` unset, and sets `dlldir` to
the library directory joined with `LIB_TO_DLLDIR` when `get_runtime_libdir` finds one,
to `bindir` joined with `BIN_TO_DLLDIR` otherwise. -/
theorem wine_init_argv0_path_installed (cfg : Config) (env : Env) (argv0 dir : List Char)
    (hexe : get_runtime_exedir cfg env = some dir)
    (hvalid : is_valid_bindir env dir = true) :
    (wine_init_argv0_path cfg env State.initial argv0).bindir = some dir
      ∧ (wine_init_argv0_path cfg env State.initial argv0).dlldir
          = some (match get_runtime_libdir cfg env with
              | some l => build_path l cfg.LIB_TO_DLLDIR
              | none => build_path dir cfg.BIN_TO_DLLDIR)
      ∧ (wine_init_argv0_path cfg env State.initial argv0).datadir
          = some (build_path dir cfg.BIN_TO_DATADIR)
      ∧ (wine_init_argv0_path cfg env State.initial argv0).build_dir = none
      ∧ (wine_init_argv0_path cfg env State.initial argv0).argv0_name
          = some (argv0_basename argv0) := by
  unfold wine_init_argv0_path validate_bindir
  cases hl : get_runtime_libdir cfg env <;>
    simp [hexe, hvalid, State.initial]

/-- Witness for C9: the installed layout without a library directory. -/
theorem wine_init_argv0_path_installed_witness :
    get_runtime_exedir cfg_linux64 env_installed_no_lib = some "/usr/bin".toList
      ∧ is_valid_bindir env_installed_no_lib "/usr/bin".toList = true
      ∧ (wine_init_argv0_path cfg_linux64 env_installed_no_lib State.initial
            "wine".toList).dlldir = some "/usr/bin/../lib/wine".toList
      ∧ (wine_init_argv0_path cfg_linux64 env_installed_no_lib State.initial
            "wine".toList).datadir
          = some (build_path "/usr/bin".toList cfg_linux64.BIN_TO_DATADIR) :=
  ⟨by decide, by decide, by decide,
    (wine_init_argv0_path_installed cfg_linux64 env_installed_no_lib "wine".toList
      "/usr/bin".toList (by decide) (by decide)).2.2.1⟩

/-- C10, refuted as stated: when no strategy yields a directory (no executable link, no
`dladdr` answer, an `argv0` without a slash), neither mode is populated. -/
theorem wine_init_argv0_path_neither_mode :
    (wine_init_argv0_path cfg_linux64 env_empty State.initial "wine".toList).build_dir = none
      ∧ (wine_init_argv0_path cfg_linux64 env_empty State.initial "wine".toList).bindir = none
      ∧ (wine_init_argv0_path cfg_linux64 env_empty State.initial "wine".toList).dlldir = none
      ∧ (wine_init_argv0_path cfg_linux64 env_empty State.initial "wine".toList).datadir
          = none := by
  decide

/-- C10, amended: after `wine_init_argv0_path` on the initial state the two modes never
mix. Either `build_dir` is set and `bindir`, `dlldir`, `datadir` are unset; or
`build_dir` is unset and the other three are all set; or all four are unset. The last
case happens exactly when no library directory is found and neither the directory of
the executable nor the directory taken from `argv0` is usable, that is, holds
`wineserver` or lies in a build tree. -/
theorem wine_init_argv0_path_modes (cfg : Config) (env : Env) (argv0 : List Char) :
    (((wine_init_argv0_path cfg env State.initial argv0).build_dir ≠ none
          ∧ (wine_init_argv0_path cfg env State.initial argv0).bindir = none
          ∧ (wine_init_argv0_path cfg env State.initial argv0).dlldir = none
          ∧ (wine_init_argv0_path cfg env State.initial argv0).datadir = none)
        ∨ ((wine_init_argv0_path cfg env State.initial argv0).build_dir = none
          ∧ (wine_init_argv0_path cfg env State.initial argv0).bindir ≠ none
          ∧ (wine_init_argv0_path cfg env State.initial argv0).dlldir ≠ none
          ∧ (wine_init_argv0_path cfg env State.initial argv0).datadir ≠ none)
        ∨ ((wine_init_argv0_path cfg env State.initial argv0).build_dir = none
          ∧ (wine_init_argv0_path cfg env State.initial argv0).bindir = none
          ∧ (wine_init_argv0_path cfg env State.initial argv0).dlldir = none
          ∧ (wine_init_argv0_path cfg env State.initial argv0).datadir = none
          ∧ get_runtime_libdir cfg env = none
          ∧ usable_dir env (get_runtime_exedir cfg env) = false
          ∧ usable_dir env (get_runtime_argvdir env argv0) = false))
      ∧ (((wine_init_argv0_path cfg env State.initial argv0).build_dir = none
          ∧ (wine_init_argv0_path cfg env State.initial argv0).bindir = none
          ∧ (wine_init_argv0_path cfg env State.initial argv0).dlldir = none
          ∧ (wine_init_argv0_path cfg env State.initial argv0).datadir = none)
        ↔ (get_runtime_libdir cfg env = none
          ∧ usable_dir env (get_runtime_exedir cfg env) = false
          ∧ usable_dir env (get_runtime_argvdir env argv0) = false)) := by
  unfold wine_init_argv0_path validate_bindir
  cases he : get_runtime_exedir cfg env with
  | none =>
    cases hl : get_runtime_libdir cfg env with
    | none =>
      cases ha : get_runtime_argvdir env argv0 with
      | none => simp [State.initial, usable_dir]
      | some a =>
        cases hv : is_valid_bindir env a
        · cases hr : running_from_build_dir env a <;>
            simp [State.initial, usable_dir, hv, hr]
        · simp [State.initial, usable_dir, hv]
    | some l =>
      cases hr : running_from_build_dir env l <;> simp [State.initial, usable_dir, hr]
  | some b =>
    cases hv : is_valid_bindir env b
    · cases hr : running_from_build_dir env b with
      | none =>
        cases hl : get_runtime_libdir cfg env with
        | none =>
          cases ha : get_runtime_argvdir env argv0 with
          | none => simp [State.initial, usable_dir, hv, hr]
          | some a =>
            cases hv2 : is_valid_bindir env a
            · cases hr2 : running_from_build_dir env a <;>
                simp [State.initial, usable_dir, hv, hr, hv2, hr2]
            · simp [State.initial, usable_dir, hv, hr, hv2]
        | some l =>
          cases hr2 : running_from_build_dir env l <;>
            simp [State.initial, usable_dir, hv, hr, hr2]
      | some r =>
        cases hl : get_runtime_libdir cfg env <;> simp [State.initial, usable_dir, hv, hr]
    · cases hl : get_runtime_libdir cfg env <;> simp [State.initial, usable_dir, hv]

/-! ## Preloader wrapping -/

/-- The C function `strendswith` decides whether `e` is a suffix of `str`. -/
theorem strendswith_eq (str e : List Char) : strendswith str e = decide (e <:+ str) := by
  unfold strendswith
  by_cases h : e <:+ str
  · have hd := List.suffix_iff_eq_drop.mp h
    have hl := h.length_le
    simp only [h, decide_True, Bool.and_eq_true, decide_eq_true_eq]
    exact ⟨hl, hd.symm⟩
  · simp only [h, decide_False, Bool.and_eq_false_iff, decide_eq_false_iff_not]
    right
    intro hd
    exact h (List.suffix_iff_eq_drop.mpr hd.symm)

theorem dir_part_of_no_slash (s : List Char) (h : '/' ∉ s) : dir_part s = [] := by
  unfold dir_part
  rw [List.reverse_eq_nil_iff, List.dropWhile_eq_nil_iff]
  intro c hc
  have : c ≠ '/' := fun e => h (e ▸ List.mem_reverse.mp hc)
  simpa using this

theorem dir_part_of_split (a b : List Char) (h : '/' ∉ b) :
    dir_part (a ++ '/' :: b) = a ++ ['/'] := by
  unfold dir_part
  rw [List.reverse_append, List.reverse_cons, List.append_assoc]
  rw [List.dropWhile_append_of_pos]
  · simp
  · intro c hc
    have : c ≠ '/' := fun e => h (e ▸ List.mem_reverse.mp hc)
    simpa using this

/-- The prefix `preloader_exec` copies, up to `p`, is the directory part of `argv[0]`,
and `p` points at its base name. -/
theorem preloader_split (s : List Char) :
    s.take (match strrchr s '/' with
        | none => 0
        | some i => i + 1) = dir_part s
      ∧ s.drop (match strrchr s '/' with
        | none => 0
        | some i => i + 1) = base_name s := by
  cases h : strrchr s '/' with
  | none =>
    have hn := strrchr_none s '/' h
    simp only [List.take_zero, List.drop_zero]
    exact ⟨(dir_part_of_no_slash s hn).symm, (base_name_of_no_slash s hn).symm⟩
  | some i =>
    obtain ⟨h1, h2⟩ := strrchr_some s '/' i h
    obtain ⟨h3, _, _⟩ := strrchr_from_some s '/' s.length i h
    simp only
    constructor
    · conv_rhs => rw [h1]
      rw [dir_part_of_split _ _ h2]
      rw [List.take_succ]
      congr 1
      rw [List.getElem?_eq_getElem h3]
      have hg : s[i] = '/' := by
        have := (strrchr_from_some s '/' s.length i h).2.1
        rw [List.get?_eq_getElem?, List.getElem?_eq_getElem h3] at this
        simpa using this
      rw [hg]
      rfl
    · conv_rhs => rw [h1]
      exact (base_name_of_split _ _ h2).symm

/-- One call of `preloader_exec` on an argument vector that starts with the target
makes the attempts the specification describes. -/
theorem preloader_exec_eq (target : List Char) (rest : List (List Char)) (wrap : Bool) :
    preloader_exec (target :: rest) wrap = candidate_attempts wrap target (target :: rest) := by
  obtain ⟨h1, h2⟩ := preloader_split target
  cases wrap
  · rfl
  · unfold preloader_exec candidate_attempts preloader_path
    simp only [List.headD_cons, if_true, h1, h2, strendswith_eq, decide_eq_true_eq]
    rfl
theorem preloader_exec_set_argv0 (argv : List (List Char)) (path : List Char)
    (wrap : Bool) :
    preloader_exec (set_argv0 argv path) wrap
      = candidate_attempts wrap path (path :: argv.tail) :=
  preloader_exec_eq path argv.tail wrap

/-- The loop over `PATH` makes, for every non-empty entry in listed order, the attempts
of the candidate `entry/name`. -/
theorem path_loop_eq (name : List Char) (argv : List (List Char)) (wrap : Bool)
    (fuel : Nat) :
    ∀ pos : List Char, pos.length < fuel →
      path_loop name argv wrap fuel pos
        = (path_entries pos).flatMap (fun entry =>
            candidate_attempts wrap (entry ++ "/".toList ++ name)
              ((entry ++ "/".toList ++ name) :: argv.tail)) := by
  induction fuel with
  | zero => intro pos h; omega
  | succ fuel ih =>
    intro pos h
    unfold path_loop
    simp only
    rw [← path_entries_dropWhile pos]
    have hlen := length_dropWhile_le (fun c => decide (c = ':')) pos
    cases hd : pos.dropWhile (fun c => decide (c = ':')) with
    | nil => simp [path_entries_nil]
    | cons x xs =>
      have hx : x ≠ ':' := by
        have := dropWhile_head_false _ _ _ _ hd
        simpa using this
      rw [hd] at hlen
      have hlen3 : ((x :: xs).dropWhile (fun c => decide (c ≠ ':'))).length < fuel := by
        have h4 : ((x :: xs).dropWhile (fun c => decide (c ≠ ':'))).length ≤ xs.length := by
          rw [List.dropWhile_cons_of_pos (by simpa using hx)]
          exact length_dropWhile_le _ xs
        simp only [List.length_cons] at hlen
        omega
      simp only [List.isEmpty_cons, Bool.false_eq_true, if_false]
      rw [preloader_exec_set_argv0, ih _ hlen3, path_entries_cons x xs hx,
        List.flatMap_cons]
      simp

/-- Every `execv` call of `wine_exec_wine_binary`, in order: the attempts of each launch
candidate, wrapped or not according to the logical name, on the argument vector whose
first entry is that candidate. -/
theorem wine_exec_wine_binary_calls_eq (cfg : Config) (env : Env) (s : State)
    (name : List Char) (argv : List (List Char)) (env_var : Option (List Char)) :
    wine_exec_wine_binary_calls cfg env s (some name) argv env_var
      = some ((launch_candidates cfg s name env_var (env.getenv "PATH".toList)).flatMap
          (fun target =>
            candidate_attempts (preloader_enabled cfg name) target (target :: argv.tail))) := by
  have hwrap : (cfg.linux && !strendswith name "wineserver".toList)
      = preloader_enabled cfg name := by
    unfold preloader_enabled
    rw [strendswith_eq]
  unfold wine_exec_wine_binary_calls
  simp only [hwrap, launch_candidates, base_name_eq_strrchr, List.flatMap_append,
    preloader_exec_set_argv0, Option.some.injEq]
  congr 1
  congr 1
  · congr 1
    · congr 1
      · cases hb : s.build_dir with
        | none => cases strrchr name '/' <;> rfl
        | some b =>
          cases hp : strrchr name '/' with
          | none =>
            have : '/' ∉ name := strrchr_none name '/' hp
            simp [this]
          | some p =>
            have : '/' ∈ name := (strrchr_isSome_iff name).mp (by rw [hp]; rfl)
            simp [this]
      · cases s.bindir with
        | none => rfl
        | some b => simp
    · cases env_var with
      | none => rfl
      | some e => simp
  · cases env.getenv "PATH".toList with
    | none => rfl
    | some path =>
      simp only
      rw [path_loop_eq _ _ _ _ path (Nat.lt_succ_self _)]
      simp [List.flatMap_map]
  · simp
theorem dir_part_append_base_name (path : List Char) :
    dir_part path ++ base_name path = path := by
  obtain ⟨h1, h2⟩ := preloader_split path
  rw [← h1, ← h2]
  exact List.take_append_drop _ _

/-- C11: preloader wrapping. For a candidate `target` and an argument vector that starts
with it, `preloader_exec` with wrapping first calls `execv` on the directory part of the
target followed by `wine64-preloader` (base name ending in `64`) or `wine-preloader`,
with that path put in front of the whole argument vector, and only when this call fails
calls `execv` on the target with the argument vector as it was; without wrapping it
makes the direct call only. `wine_exec_wine_binary` wraps exactly when `linux` is
defined and the logical name does not end in `wineserver`, and its calls are these
attempts for each launch candidate in order, for a passed name and for the default
name. -/
theorem preloader_exec_wrapping (cfg : Config) (env : Env) (s : State)
    (name target : List Char) (argv rest : List (List Char))
    (env_var : Option (List Char)) (execv : ExecCall → Bool) :
    preloader_exec (target :: rest) true
        = [ExecCall.mk (preloader_path target) (preloader_path target :: target :: rest) true,
            ExecCall.mk target (target :: rest) false]
      ∧ preloader_exec (target :: rest) false = [ExecCall.mk target (target :: rest) false]
      ∧ dir_part target ++ base_name target = target
      ∧ run_calls execv [] (preloader_exec (target :: rest) true)
          = (if execv (ExecCall.mk (preloader_path target)
                (preloader_path target :: target :: rest) true) then
              .replaced []
                (ExecCall.mk (preloader_path target) (preloader_path target :: target :: rest)
                  true)
            else if execv (ExecCall.mk target (target :: rest) false) then
              .replaced
                [ExecCall.mk (preloader_path target) (preloader_path target :: target :: rest)
                  true]
                (ExecCall.mk target (target :: rest) false)
            else
              .returned
                [ExecCall.mk (preloader_path target) (preloader_path target :: target :: rest)
                  true,
                 ExecCall.mk target (target :: rest) false])
      ∧ (preloader_enabled cfg name = true
          ↔ cfg.linux = true ∧ ¬ "wineserver".toList <:+ name)
      ∧ wine_exec_wine_binary cfg env (fun _ => false) s (some name) argv env_var
          = some (.returned
              ((launch_candidates cfg s name env_var (env.getenv "PATH".toList)).flatMap
                (fun candidate =>
                  candidate_attempts (preloader_enabled cfg name) candidate
                    (candidate :: argv.tail))))
      ∧ wine_exec_wine_binary cfg env (fun _ => false) { s with argv0_name := some name }
            none argv env_var
          = some (.returned
              ((launch_candidates cfg s name env_var (env.getenv "PATH".toList)).flatMap
                (fun candidate =>
                  candidate_attempts (preloader_enabled cfg name) candidate
                    (candidate :: argv.tail))))
      ∧ wine_exec_wine_binary_calls cfg_linux64 env_empty
            { State.initial with bindir := some "/opt/rt/bin".toList }
            (some "wine64".toList) ["wine64".toList, "a.exe".toList] none
          = some
              [ExecCall.mk "/opt/rt/bin/wine64-preloader".toList
                ["/opt/rt/bin/wine64-preloader".toList, "/opt/rt/bin/wine64".toList,
                  "a.exe".toList] true,
               ExecCall.mk "/opt/rt/bin/wine64".toList
                ["/opt/rt/bin/wine64".toList, "a.exe".toList] false,
               ExecCall.mk "/usr/local/bin/wine64-preloader".toList
                ["/usr/local/bin/wine64-preloader".toList, "/usr/local/bin/wine64".toList,
                  "a.exe".toList] true,
               ExecCall.mk "/usr/local/bin/wine64".toList
                ["/usr/local/bin/wine64".toList, "a.exe".toList] false] := by
  have hpre := preloader_exec_eq target rest true
  have hcalls := wine_exec_wine_binary_calls_eq cfg env s name argv env_var
  have hwrapped : candidate_attempts true target (target :: rest)
      = [ExecCall.mk (preloader_path target) (preloader_path target :: target :: rest) true,
          ExecCall.mk target (target :: rest) false] := rfl
  refine ⟨hpre.trans hwrapped, preloader_exec_eq target rest false,
    dir_part_append_base_name target, ?_, ?_, ?_, ?_, by decide⟩
  · rw [hpre, hwrapped]
    simp only [run_calls, List.nil_append]
    split
    · rfl
    · split <;> rfl
  · unfold preloader_enabled
    simp
  · unfold wine_exec_wine_binary
    rw [hcalls]
    simp [run_calls_all_fail]
  · have hdef : wine_exec_wine_binary_calls cfg env { s with argv0_name := some name } none
        argv env_var = wine_exec_wine_binary_calls cfg env s (some name) argv env_var := rfl
    unfold wine_exec_wine_binary
    rw [hdef, hcalls]
    simp [run_calls_all_fail]

end WineConfig
